import Mathlib

/-
Shallow embedding of the forum canister in src/src/index.ts
(repository brycentjw/icp-azle-forum).

Modelling conventions, used throughout:
- JS Date values are modelled as Nat timestamps, passed in explicitly as a
  `now` argument wherever the source calls `new Date()` or reads the clock.
- A JS `Map<Date, string>` edit history is insertion ordered and every
  `new Date()` is a fresh key object, so `set` always appends; it is
  modelled as `List (Nat × String)` with append.
- `StableBTreeMap<string, Category>` is modelled as an association list
  `List (String × Category)`; `get` is the first entry with that key.
- The three address tables (banned, moderators, admins) are keyed by fresh
  uuids and only their values are ever read (membership scans) or removed
  (first entry whose value matches); they are modelled as `List String` of
  the stored values, insert = append, remove = erase of first occurrence.
- `ic.caller().toString()` becomes an explicit `caller : String` argument.
- `uuidv4()` becomes an explicit `id : String` argument (freshness, where
  it matters, is a hypothesis on the trace, mirroring uuid uniqueness).
- An express handler is modelled as a function from the state and its
  request data to an HTTP response (status and textual body; object
  payloads are elided to an empty body) together with the new state.
-/

namespace Forum

/-- The Message class of index.ts (posts, and the base part of topics). -/
structure Message where
  id : String
  message : String
  messageDeleted : Bool
  createdBy : String
  createdAt : Nat
  likes : List String
  messageEditHistory : List (Nat × String)
deriving DecidableEq, Repr

/-- The Message constructor of index.ts. -/
def Message.new (id message createdBy : String) (now : Nat) : Message :=
  { id := id
    message := message
    messageDeleted := false
    createdBy := createdBy
    createdAt := now
    likes := []
    messageEditHistory := [] }

/-- The Topic class of index.ts (extends Message). -/
structure Topic extends Message where
  title : String
  posts : List Message
  pinned : Bool
  closed : Bool
  categoryid : String
  titleEditHistory : List (Nat × String)
  mostRecentActivity : Nat
deriving DecidableEq, Repr

/-- The Topic constructor of index.ts. -/
def Topic.new (id title message categoryid createdBy : String) (now : Nat) : Topic :=
  { Message.new id message createdBy now with
    title := title
    posts := []
    pinned := false
    closed := false
    categoryid := categoryid
    mostRecentActivity := now
    titleEditHistory := [] }

/-- The Category class of index.ts. -/
structure Category where
  id : String
  name : String
  topics : List (String × Topic)
  pinnedTopics : List String
  mostRecentTopics : List String
  createdAt : Nat
  createdBy : String
deriving DecidableEq, Repr

/-- The Category constructor of index.ts. -/
def Category.new (id name createdBy : String) (now : Nat) : Category :=
  { id := id
    name := name
    topics := []
    pinnedTopics := []
    mostRecentTopics := []
    createdAt := now
    createdBy := createdBy }

/-- The tagged Ok/Err result type of index.ts. -/
inductive Result (α β : Type) where
  | ok (value : α)
  | err (error : β)
deriving DecidableEq, Repr

/-- The four persistent tables of index.ts: categoriesStorage plus the three
address tables, the latter reduced to their stored values (see header). -/
structure AppState where
  categoriesStorage : List (String × Category)
  bannedAddressesStorage : List String
  moderatorsStorage : List String
  adminsStorage : List String
deriving DecidableEq, Repr

/-- JS String.toUpperCase, modelled character-wise (addresses are ASCII
principal texts, for which this is exact). -/
def toUpperCase (s : String) : String :=
  String.mk (s.data.map Char.toUpper)

/-- checkIfAdmin of index.ts: case-insensitive scan over the admin values. -/
def checkIfAdmin (st : AppState) (address : String) : Bool :=
  st.adminsStorage.any (fun admin => toUpperCase admin == toUpperCase address)

/-- checkIfModerator of index.ts: case-insensitive scan over the moderator values. -/
def checkIfModerator (st : AppState) (address : String) : Bool :=
  st.moderatorsStorage.any (fun moderator => toUpperCase moderator == toUpperCase address)

/-- checkIfBanned of index.ts: exact-match scan over the banned values. -/
def checkIfBanned (st : AppState) (address : String) : Bool :=
  st.bannedAddressesStorage.any (fun banned => banned == address)

/-- checkIfAuthorized of index.ts: creator, admin or moderator. -/
def checkIfAuthorized (st : AppState) (creatorAddress caller : String) : Bool :=
  checkIfAdmin st caller || checkIfModerator st caller || caller == creatorAddress

/-- addAdmin of index.ts. -/
def addAdmin (address caller : String) (st : AppState) : Result String String × AppState :=
  if !(checkIfAdmin st caller) then
    (.err "You are not authorized to add an admin", st)
  else if checkIfAdmin st address then
    (.err "Admin already added", st)
  else
    (.ok address, { st with adminsStorage := st.adminsStorage ++ [address] })

/-- addModerator of index.ts. -/
def addModerator (address caller : String) (st : AppState) : Result String String × AppState :=
  if !(checkIfAdmin st caller) then
    (.err "You are not authorized to add a moderator", st)
  else if checkIfModerator st address then
    (.err "Moderator already added", st)
  else
    (.ok address, { st with moderatorsStorage := st.moderatorsStorage ++ [address] })

/-- removeModerator of index.ts: removes the first stored entry whose value
is exactly the address. -/
def removeModerator (address caller : String) (st : AppState) : Result String String × AppState :=
  if !(checkIfAdmin st caller) then
    (.err "You are not authorized to remove a moderator", st)
  else if st.moderatorsStorage.contains address then
    (.ok address, { st with moderatorsStorage := st.moderatorsStorage.erase address })
  else
    (.err "Moderator not found", st)

/-- removeAdmin of index.ts: removes the first stored entry whose value
is exactly the address. -/
def removeAdmin (address caller : String) (st : AppState) : Result String String × AppState :=
  if !(checkIfAdmin st caller) then
    (.err "You are not authorized to remove an admin", st)
  else if st.adminsStorage.contains address then
    (.ok address, { st with adminsStorage := st.adminsStorage.erase address })
  else
    (.err "Admin not found", st)

/-- banAddress of index.ts: caller must be staff, target must not be staff,
target must not already be banned; then insert. -/
def banAddress (address caller : String) (st : AppState) : Result String String × AppState :=
  if !(checkIfAdmin st caller) && !(checkIfModerator st caller) then
    (.err "You are not authorized to ban this address", st)
  else if checkIfAdmin st address || checkIfModerator st address then
    (.err "Cannot ban an admin or moderator", st)
  else if checkIfBanned st address then
    (.err "Address is already banned", st)
  else
    (.ok address, { st with bannedAddressesStorage := st.bannedAddressesStorage ++ [address] })

/-- unbanAddress of index.ts. -/
def unbanAddress (address caller : String) (st : AppState) : Result String String × AppState :=
  if !(checkIfAdmin st caller) && !(checkIfModerator st caller) then
    (.err "You are not authorized to unban this address", st)
  else if st.bannedAddressesStorage.contains address then
    (.ok address, { st with bannedAddressesStorage := st.bannedAddressesStorage.erase address })
  else
    (.err "Address is not banned", st)

/-- The possible successful payloads of getCategoryOrTopicOrPost. The
topicsMap case is the branch taken when the literal string "topics" is
passed as the topic id. -/
inductive ResolveOk where
  | category (c : Category)
  | topicsMap (ts : List (String × Topic))
  | topic (t : Topic)
  | post (p : Message)
deriving DecidableEq, Repr

/-- categoriesStorage.get: first entry with the given key. -/
def storageGet (m : List (String × Category)) (k : String) : Option Category :=
  (m.find? (fun e => e.1 == k)).map (fun e => e.2)

/-- category.topics.get: first entry with the given key. -/
def topicsGet (ts : List (String × Topic)) (k : String) : Option Topic :=
  (ts.find? (fun e => e.1 == k)).map (fun e => e.2)

/-- getCategoryOrTopicOrPost of index.ts: resolves the deepest requested
entity, reporting the first missing level (category, then topic, then
post). A post is addressed by zero-based position in topic.posts, and is
returned whether or not it is soft deleted (the array slot always holds a
truthy object). The error string is what the handler sends with status 404. -/
def getCategoryOrTopicOrPost (st : AppState) (categoryid : String)
    (topicid : Option String) (postid : Option Nat) : Result ResolveOk String :=
  match storageGet st.categoriesStorage categoryid with
  | none => .err ("Category with id=" ++ categoryid ++ " not found")
  | some category =>
    match topicid with
    | none => .ok (.category category)
    | some tid =>
      if tid == "topics" then .ok (.topicsMap category.topics)
      else
        match topicsGet category.topics tid with
        | none => .err ("Topic with id=" ++ tid ++ " not found")
        | some topic =>
          match postid with
          | none => .ok (.topic topic)
          | some pid =>
            match topic.posts.get? pid with
            | none => .err ("Post with id=" ++ toString pid ++ " not found")
            | some post => .ok (.post post)

/-- acknowledgeTopicActivity of index.ts: stamps the topic with the current
time, removes its id from mostRecentTopics if present (splice of one
element at the found index) and unshifts it to the front. -/
def acknowledgeTopicActivity (category : Category) (topicid : String) (now : Nat) : Category :=
  let withTime := { category with
    topics := category.topics.map (fun e : String × Topic =>
      if e.1 == topicid then (e.1, { e.2 with mostRecentActivity := now }) else e) }
  let without :=
    match withTime.mostRecentTopics.findIdx? (fun element => element == topicid) with
    | some mostRecentTopicIndex => withTime.mostRecentTopics.eraseIdx mostRecentTopicIndex
    | none => withTime.mostRecentTopics
  { withTime with mostRecentTopics := topicid :: without }

/-- The forEach body of sortTopicsByActivityAndPin: push the id unless the
accumulator already includes it. -/
def pushUnique (uniqueSortedTopics : List String) (topicid : String) : List String :=
  if topicid ∈ uniqueSortedTopics then uniqueSortedTopics
  else uniqueSortedTopics ++ [topicid]

/-- sortTopicsByActivityAndPin of index.ts: pinnedTopics concatenated with
mostRecentTopics, de-duplicated keeping the first occurrence. -/
def sortTopicsByActivityAndPin (category : Category) : List String :=
  (category.pinnedTopics ++ category.mostRecentTopics).foldl pushUnique []

/-- likeOrUnlikeMessage of index.ts, acting on the likes array of a message:
findIndex of the caller, then push (like, when absent) or splice of one
element at that index (unlike, when present). Returns the success flag and
the new likes array. -/
def likeOrUnlikeMessage (likes : List String) (caller : String) (shouldLike : Bool) :
    Bool × List String :=
  let callerIndex := likes.findIdx? (fun element => element == caller)
  if shouldLike then
    match callerIndex with
    | none => (true, likes ++ [caller])
    | some _ => (false, likes)
  else
    match callerIndex with
    | some i => (true, likes.eraseIdx i)
    | none => (false, likes)

/-- editMessage of index.ts: record (now, current body) in the edit history
(a fresh Date key, so always a new entry), then overwrite the body. -/
def editMessage (m : Message) (now : Nat) (newMessage : String) : Message :=
  { m with
    messageEditHistory := m.messageEditHistory ++ [(now, m.message)]
    message := newMessage }

/-- editMessage applied to a Topic (the source passes the topic object to
editMessage; the inherited Message fields are the ones touched). -/
def Topic.editMessagePart (t : Topic) (now : Nat) (newMessage : String) : Topic :=
  { t with toMessage := editMessage t.toMessage now newMessage }

/-- editTitle of index.ts. -/
def editTitle (topic : Topic) (now : Nat) (newTitle : String) : Topic :=
  { topic with
    titleEditHistory := topic.titleEditHistory ++ [(now, topic.title)]
    title := newTitle }

/-- An HTTP response: status code and text body (object payloads elided). -/
structure HttpRes where
  status : Nat
  body : String
deriving DecidableEq, Repr

/-- Replace the category stored under the given id (mutation through the
object alias returned by categoriesStorage.get). -/
def updateCategory (st : AppState) (categoryid : String) (f : Category → Category) : AppState :=
  { st with categoriesStorage := st.categoriesStorage.map (fun e =>
      if e.1 == categoryid then (e.1, f e.2) else e) }

/-- JS Map.set on the topics map: replace in place when the key is present,
append otherwise (JS Map preserves insertion order). -/
def mapSet (topics : List (String × Topic)) (k : String) (v : Topic) : List (String × Topic) :=
  if topics.any (fun e => e.1 == k) then
    topics.map (fun e => if e.1 == k then (k, v) else e)
  else topics ++ [(k, v)]

/-- The assignment topicResult.value.pinned = shouldPin of the pin handler,
as a function on topics. -/
def setPinnedFlag (shouldPin : Bool) (x : Topic) : Topic :=
  { x with pinned := shouldPin }

/-- Mutate the topic stored under the given key of the topics map. -/
def modifyTopic (category : Category) (topicid : String) (f : Topic → Topic) : Category :=
  { category with topics := category.topics.map (fun e =>
      if e.1 == topicid then (e.1, f e.2) else e) }

/-- The POST /categories/:categoryid/topics handler of index.ts. No role or
ban check of the caller is performed. -/
def createTopicRoute (st : AppState) (categoryid title message id caller : String)
    (now : Nat) : HttpRes × AppState :=
  match getCategoryOrTopicOrPost st categoryid none none with
  | .err m => (⟨404, m⟩, st)
  | .ok (.category category) =>
      let topic := Topic.new id title message category.id caller now
      let st' := updateCategory st categoryid (fun c =>
        acknowledgeTopicActivity { c with topics := mapSet c.topics topic.id topic } topic.id now)
      (⟨201, ""⟩, st')
  | .ok _ => (⟨500, ""⟩, st)  -- unreachable: resolving only a category id

/-- The POST /categories/:categoryid/topics/:topicid/posts handler of
index.ts. No role or ban check of the caller is performed. -/
def createPostRoute (st : AppState) (categoryid topicid message id caller : String)
    (now : Nat) : HttpRes × AppState :=
  match getCategoryOrTopicOrPost st categoryid none none,
        getCategoryOrTopicOrPost st categoryid (some topicid) none with
  | .ok (.category _), .ok (.topic _) =>
      let post := Message.new id message caller now
      let st' := updateCategory st categoryid (fun c =>
        acknowledgeTopicActivity
          (modifyTopic c topicid (fun t => { t with posts := t.posts ++ [post] })) topicid now)
      (⟨201, ""⟩, st')
  | .err m, _ => (⟨404, m⟩, st)
  | _, .err m => (⟨404, m⟩, st)
  | _, _ => (⟨500, ""⟩, st)  -- unreachable payload shapes

/-- The POST /categories/:categoryid/topics/:topicid/likes handler of
index.ts. No ban check of the caller is performed. -/
def likeTopicRoute (st : AppState) (categoryid topicid caller : String) : HttpRes × AppState :=
  match getCategoryOrTopicOrPost st categoryid (some topicid) none with
  | .err m => (⟨404, m⟩, st)
  | .ok (.topic topic) =>
      let r := likeOrUnlikeMessage topic.likes caller true
      let st' := updateCategory st categoryid (fun c =>
        modifyTopic c topicid (fun t => { t with likes := r.2 }))
      if r.1 then (⟨200, "Topic liked"⟩, st')
      else (⟨400, "Topic already liked"⟩, st')
  | .ok _ => (⟨500, ""⟩, st)  -- unreachable payload shapes

/-- The DELETE /categories/:categoryid/topics/:topicid/likes handler of
index.ts. No ban check of the caller is performed. -/
def unlikeTopicRoute (st : AppState) (categoryid topicid caller : String) : HttpRes × AppState :=
  match getCategoryOrTopicOrPost st categoryid (some topicid) none with
  | .err m => (⟨404, m⟩, st)
  | .ok (.topic topic) =>
      let r := likeOrUnlikeMessage topic.likes caller false
      let st' := updateCategory st categoryid (fun c =>
        modifyTopic c topicid (fun t => { t with likes := r.2 }))
      if r.1 then (⟨200, "Like removed from topic"⟩, st')
      else (⟨400, "Topic was not liked"⟩, st')
  | .ok _ => (⟨500, ""⟩, st)  -- unreachable payload shapes

/-- The PUT /categories/:categoryid/topics/:topicid handler of index.ts
(edit a topic). The caller identity is accepted but never compared with
topic.createdBy: the handler only checks the closed and deleted flags.
newMessage / newTitle are null (none) or provided (some). -/
def editTopicRoute (st : AppState) (categoryid topicid : String)
    (newMessage newTitle : Option String) (caller : String) (now : Nat) : HttpRes × AppState :=
  match getCategoryOrTopicOrPost st categoryid (some topicid) none with
  | .err m => (⟨404, m⟩, st)
  | .ok (.topic topic) =>
      if !topic.closed then
        if !topic.messageDeleted then
          let applyBoth : Topic → Topic := fun t =>
            let t1 := match newMessage with
              | some s => Topic.editMessagePart t now s
              | none => t
            match newTitle with
            | some s => editTitle t1 now s
            | none => t1
          (⟨200, "Topic updated"⟩,
           updateCategory st categoryid (fun c => modifyTopic c topicid applyBoth))
        else (⟨403, "This topic has been deleted"⟩, st)
      else (⟨403, "This topic has been closed"⟩, st)
  | .ok _ => (⟨500, ""⟩, st)  -- unreachable payload shapes

/-- The PUT /categories/:categoryid/topics/:topicid/posts/:postid handler of
index.ts (edit a post). newMessage = none models a missing or non-string
field (400). The caller identity is accepted but never compared with
post.createdBy: the handler only checks the closed and deleted flags of the
owning topic. -/
def editPostRoute (st : AppState) (categoryid topicid : String) (postid : Nat)
    (newMessage : Option String) (caller : String) (now : Nat) : HttpRes × AppState :=
  match newMessage with
  | none => (⟨400, "newMessage was not provided or is not a string"⟩, st)
  | some s =>
    match getCategoryOrTopicOrPost st categoryid (some topicid) none,
          getCategoryOrTopicOrPost st categoryid (some topicid) (some postid) with
    | .ok (.topic topic), .ok (.post _) =>
        if !topic.closed then
          if !topic.messageDeleted then
            (⟨200, "Post updated"⟩,
             updateCategory st categoryid (fun c => modifyTopic c topicid (fun t =>
               { t with posts :=
                  match t.posts.get? postid with
                  | some p => t.posts.set postid (editMessage p now s)
                  | none => t.posts })))
          else (⟨403, "This post has been deleted"⟩, st)
        else (⟨403, "This post\x27s topic has been closed"⟩, st)
    | .err m, _ => (⟨404, m⟩, st)
    | _, .err m => (⟨404, m⟩, st)
    | _, _ => (⟨500, ""⟩, st)  -- unreachable payload shapes

/-- The PUT /categories/:categoryid/topics/:topicid/pin handler of index.ts.
The BadRequest branch for a non-boolean shouldPin is ruled out by typing.
splice(index, 1) removes exactly the found occurrence; push appends. The
pinned flag of the topic is set to shouldPin in every successful case. -/
def pinTopicRoute (st : AppState) (categoryid topicid : String) (shouldPin : Bool)
    (caller : String) : HttpRes × AppState :=
  if checkIfModerator st caller || checkIfAdmin st caller then
    match getCategoryOrTopicOrPost st categoryid none none,
          getCategoryOrTopicOrPost st categoryid (some topicid) none with
    | .ok (.category category), .ok (.topic topic) =>
        let id := topic.id
        let pinned' :=
          match category.pinnedTopics.findIdx? (fun element => element == id) with
          | some pinnedTopicsIndex =>
              if !shouldPin then category.pinnedTopics.eraseIdx pinnedTopicsIndex
              else category.pinnedTopics
          | none =>
              if shouldPin then category.pinnedTopics ++ [id]
              else category.pinnedTopics
        let st' := updateCategory st categoryid (fun c =>
          modifyTopic { c with pinnedTopics := pinned' } topicid
            (fun t => { t with pinned := shouldPin }))
        (⟨200, if shouldPin then "Topic pinned" else "Topic unpinned"⟩, st')
    | .err m, _ => (⟨404, m⟩, st)
    | _, .err m => (⟨404, m⟩, st)
    | _, _ => (⟨500, ""⟩, st)  -- unreachable payload shapes
  else (⟨403, "You are not authorized to pin or unpin a topic"⟩, st)

/-- The PUT /categories/:categoryid/topics/:topicid/close handler of
index.ts. The BadRequest branch for a non-boolean shouldClose is ruled out
by typing. -/
def closeTopicRoute (st : AppState) (categoryid topicid : String) (shouldClose : Bool)
    (caller : String) : HttpRes × AppState :=
  if checkIfModerator st caller || checkIfAdmin st caller then
    match getCategoryOrTopicOrPost st categoryid (some topicid) none with
    | .err m => (⟨404, m⟩, st)
    | .ok (.topic _) =>
        (⟨200, if shouldClose then "Topic closed" else "Topic reopened"⟩,
         updateCategory st categoryid (fun c => modifyTopic c topicid
           (fun t => { t with closed := shouldClose })))
    | .ok _ => (⟨500, ""⟩, st)  -- unreachable payload shapes
  else (⟨403, "You are not authorized to close or reopen a topic"⟩, st)

/-- The DELETE /categories/:categoryid/topics/:topicid/posts/:postid handler
of index.ts (soft delete): blanks the message, clears the edit history and
sets messageDeleted, leaving the posts array slot in place. The deleted
flag of the post is never consulted, so a repeat delete succeeds again. -/
def softDeletePostRoute (st : AppState) (categoryid topicid : String) (postid : Nat)
    (caller : String) : HttpRes × AppState :=
  match getCategoryOrTopicOrPost st categoryid (some topicid) none,
        getCategoryOrTopicOrPost st categoryid (some topicid) (some postid) with
  | .ok (.topic _), .ok (.post post) =>
      if checkIfAuthorized st post.createdBy caller then
        (⟨200, "Post deleted"⟩,
         updateCategory st categoryid (fun c => modifyTopic c topicid (fun t =>
           let blankedPost : Message :=
             { post with message := "", messageEditHistory := [], messageDeleted := true }
           { t with posts := t.posts.set postid blankedPost })))
      else (⟨403, "You are not authorized to delete this post"⟩, st)
  | .err m, _ => (⟨404, m⟩, st)
  | _, .err m => (⟨404, m⟩, st)
  | _, _ => (⟨500, ""⟩, st)  -- unreachable payload shapes

/-- The POST /categories/:categoryid/topics/:topicid/posts/:postid/likes
handler of index.ts. No ban check of the caller is performed. -/
def likePostRoute (st : AppState) (categoryid topicid : String) (postid : Nat)
    (caller : String) : HttpRes × AppState :=
  match getCategoryOrTopicOrPost st categoryid (some topicid) (some postid) with
  | .err m => (⟨404, m⟩, st)
  | .ok (.post post) =>
      let r := likeOrUnlikeMessage post.likes caller true
      let st' := updateCategory st categoryid (fun c => modifyTopic c topicid (fun t =>
        { t with posts :=
            match t.posts.get? postid with
            | some p => t.posts.set postid ({ p with likes := r.2 })
            | none => t.posts }))
      if r.1 then (⟨200, "Post liked"⟩, st')
      else (⟨400, "Post already liked"⟩, st')
  | .ok _ => (⟨500, ""⟩, st)  -- unreachable payload shapes

/-- The DELETE /categories/:categoryid/topics/:topicid/posts/:postid/likes
handler of index.ts. No ban check of the caller is performed. -/
def unlikePostRoute (st : AppState) (categoryid topicid : String) (postid : Nat)
    (caller : String) : HttpRes × AppState :=
  match getCategoryOrTopicOrPost st categoryid (some topicid) (some postid) with
  | .err m => (⟨404, m⟩, st)
  | .ok (.post post) =>
      let r := likeOrUnlikeMessage post.likes caller false
      let st' := updateCategory st categoryid (fun c => modifyTopic c topicid (fun t =>
        { t with posts :=
            match t.posts.get? postid with
            | some p => t.posts.set postid ({ p with likes := r.2 })
            | none => t.posts }))
      if r.1 then (⟨200, "Like removed from post"⟩, st')
      else (⟨400, "Post was not liked"⟩, st')
  | .ok _ => (⟨500, ""⟩, st)  -- unreachable payload shapes

/-- JS String.trim, modelled character-wise over whitespace. -/
def trimStr (s : String) : String :=
  String.mk (((s.data.dropWhile Char.isWhitespace).reverse.dropWhile Char.isWhitespace).reverse)

/-- validateCategoryInput of index.ts: the name field must be present, a
string (a missing or non-string field is modelled as none) and non-empty
after trimming. -/
def validateCategoryInput (name : Option String) : Option String :=
  match name with
  | none => some "name is required and must be a non-empty string."
  | some s =>
      if trimStr s == "" then some "name is required and must be a non-empty string."
      else none

/-- categoriesStorage.insert: replace in place when the key is present,
append otherwise. -/
def storageSet (m : List (String × Category)) (k : String) (v : Category) :
    List (String × Category) :=
  if m.any (fun e => e.1 == k) then m.map (fun e => if e.1 == k then (k, v) else e)
  else m ++ [(k, v)]

/-- The POST /categories handler of index.ts: input validation, admin
check, then insertion of a fresh empty category. -/
def createCategoryRoute (st : AppState) (name : Option String) (id caller : String)
    (now : Nat) : HttpRes × AppState :=
  match validateCategoryInput name with
  | some validationError => (⟨400, validationError⟩, st)
  | none =>
      match name with
      | some nm =>
          if !(checkIfAdmin st caller) then
            (⟨403, "You are not an admin, and cannot add a category"⟩, st)
          else
            let category := Category.new id nm caller now
            (⟨201, ""⟩,
             { st with categoriesStorage := storageSet st.categoriesStorage category.id category })
      | none => (⟨500, ""⟩, st)  -- unreachable: validation rejects none

/-- The DELETE /categories/:categoryid handler of index.ts: admin only;
removes the entry with that key from categoriesStorage. -/
def deleteCategoryRoute (st : AppState) (categoryid caller : String) : HttpRes × AppState :=
  if checkIfAdmin st caller then
    (⟨200, "Category deleted"⟩,
     { st with categoriesStorage := st.categoriesStorage.eraseP (fun e => e.1 == categoryid) })
  else (⟨403, "You are not an admin, and cannot delete a category"⟩, st)

/-- Iterated editMessage: apply a list of (time, new body) edits in order. -/
def applyEdits (m : Message) : List (Nat × String) → Message
  | [] => m
  | (t, s) :: rest => applyEdits (editMessage m t s) rest

/-- The sequence of history entries produced by a run of edits starting
from the given body: entry k carries the body in force just before edit k. -/
def priorBodies (body : String) : List (Nat × String) → List (Nat × String)
  | [] => []
  | (t, s) :: rest => (t, body) :: priorBodies s rest

/-- One registry operation, with its caller: the address-table mutations of
index.ts reachable through the /admins, /moderators and /ban routes. -/
inductive RegOp where
  | addAdminOp (address caller : String)
  | addModeratorOp (address caller : String)
  | removeAdminOp (address caller : String)
  | removeModeratorOp (address caller : String)
  | banOp (address caller : String)
  | unbanOp (address caller : String)
deriving DecidableEq, Repr

/-- State effect of one registry operation (failed calls leave the state
unchanged, exactly as the source functions do). -/
def applyRegOp (st : AppState) : RegOp → AppState
  | .addAdminOp a c => (addAdmin a c st).2
  | .addModeratorOp a c => (addModerator a c st).2
  | .removeAdminOp a c => (removeAdmin a c st).2
  | .removeModeratorOp a c => (removeModerator a c st).2
  | .banOp a c => (banAddress a c st).2
  | .unbanOp a c => (unbanAddress a c st).2

/-- Run a sequence of registry operations. -/
def runRegOps (st : AppState) : List RegOp → AppState
  | [] => st
  | op :: rest => runRegOps (applyRegOp st op) rest

/-- The claimed registry invariant: no banned address is simultaneously an
admin or a moderator. -/
def RegInv (st : AppState) : Prop :=
  ∀ a ∈ st.bannedAddressesStorage, a ∉ st.adminsStorage ∧ a ∉ st.moderatorsStorage

/-- A trace restriction: no addAdmin or addModerator call targets an address
that is banned at the moment of the call. -/
def safeTrace (st : AppState) : List RegOp → Bool
  | [] => true
  | op :: rest =>
      (match op with
       | .addAdminOp a _ => !(checkIfBanned st a)
       | .addModeratorOp a _ => !(checkIfBanned st a)
       | _ => true) && safeTrace (applyRegOp st op) rest

/-- One mutating request of the whole application: every express handler of
index.ts that writes state, with its request data and caller. -/
inductive AppOp where
  | createCategoryOp (name : Option String) (id caller : String)
  | deleteCategoryOp (categoryid caller : String)
  | createTopicOp (categoryid title message id caller : String)
  | createPostOp (categoryid topicid message id caller : String)
  | likeTopicOp (categoryid topicid caller : String)
  | unlikeTopicOp (categoryid topicid caller : String)
  | likePostOp (categoryid topicid : String) (postid : Nat) (caller : String)
  | unlikePostOp (categoryid topicid : String) (postid : Nat) (caller : String)
  | editTopicOp (categoryid topicid : String) (newMessage newTitle : Option String)
      (caller : String)
  | editPostOp (categoryid topicid : String) (postid : Nat) (newMessage : Option String)
      (caller : String)
  | pinTopicOp (categoryid topicid : String) (shouldPin : Bool) (caller : String)
  | closeTopicOp (categoryid topicid : String) (shouldClose : Bool) (caller : String)
  | deletePostOp (categoryid topicid : String) (postid : Nat) (caller : String)
  | registryOp (op : RegOp)
deriving DecidableEq, Repr

/-- State effect of one application request, at the given clock reading. -/
def applyAppOp (st : AppState) (now : Nat) : AppOp → AppState
  | .createCategoryOp name id caller => (createCategoryRoute st name id caller now).2
  | .deleteCategoryOp categoryid caller => (deleteCategoryRoute st categoryid caller).2
  | .createTopicOp categoryid title message id caller =>
      (createTopicRoute st categoryid title message id caller now).2
  | .createPostOp categoryid topicid message id caller =>
      (createPostRoute st categoryid topicid message id caller now).2
  | .likeTopicOp categoryid topicid caller => (likeTopicRoute st categoryid topicid caller).2
  | .unlikeTopicOp categoryid topicid caller => (unlikeTopicRoute st categoryid topicid caller).2
  | .likePostOp categoryid topicid postid caller =>
      (likePostRoute st categoryid topicid postid caller).2
  | .unlikePostOp categoryid topicid postid caller =>
      (unlikePostRoute st categoryid topicid postid caller).2
  | .editTopicOp categoryid topicid newMessage newTitle caller =>
      (editTopicRoute st categoryid topicid newMessage newTitle caller now).2
  | .editPostOp categoryid topicid postid newMessage caller =>
      (editPostRoute st categoryid topicid postid newMessage caller now).2
  | .pinTopicOp categoryid topicid shouldPin caller =>
      (pinTopicRoute st categoryid topicid shouldPin caller).2
  | .closeTopicOp categoryid topicid shouldClose caller =>
      (closeTopicRoute st categoryid topicid shouldClose caller).2
  | .deletePostOp categoryid topicid postid caller =>
      (softDeletePostRoute st categoryid topicid postid caller).2
  | .registryOp op => applyRegOp st op

/-- Run a sequence of timed application requests. -/
def runApp (st : AppState) : List (Nat × AppOp) → AppState
  | [] => st
  | (now, op) :: rest => runApp (applyAppOp st now op) rest

/-- Per-category pin coherence: pinnedTopics has no duplicates, the topics
map has no duplicate keys, every topic is stored under its own id with its
pinned flag true exactly when that id occurs in pinnedTopics, and every
pinned id denotes a stored topic. -/
def CatInv (c : Category) : Prop :=
  c.pinnedTopics.Nodup ∧
  (c.topics.map Prod.fst).Nodup ∧
  (∀ te ∈ c.topics, te.2.id = te.1 ∧ (te.2.pinned = true ↔ te.1 ∈ c.pinnedTopics)) ∧
  (∀ pid ∈ c.pinnedTopics, ∃ te ∈ c.topics, te.1 = pid)

/-- Whole-state pin coherence: category keys are unique and every stored
category satisfies CatInv. -/
def PinInv (st : AppState) : Prop :=
  (st.categoriesStorage.map Prod.fst).Nodup ∧ ∀ e ∈ st.categoriesStorage, CatInv e.2

/-- Freshness of the topic id a createTopic request would insert: the id is
not yet a key of the targeted category (true for every other request). -/
def createTopicGuard (st : AppState) : AppOp → Bool
  | .createTopicOp categoryid _ _ id _ =>
      (match storageGet st.categoriesStorage categoryid with
       | some category => !(category.topics.any (fun e => e.1 == id))
       | none => true)
  | _ => true

/-- Trace restriction mirroring uuidv4 freshness: every createTopic request
uses a topic id that is not yet a key of the targeted category. -/
def freshTopicIds (st : AppState) : List (Nat × AppOp) → Bool
  | [] => true
  | (now, op) :: rest =>
      createTopicGuard st op && freshTopicIds (applyAppOp st now op) rest

/-- A concrete post by alice, used in the scenario states below. -/
def postEx1 : Message := Message.new "p1" "hi there" "alice" 0

/-- A concrete topic by alice holding postEx1. -/
def topicEx1 : Topic := { Topic.new "t1" "Hello" "hi" "c1" "alice" 0 with posts := [postEx1] }

/-- A concrete category holding topicEx1. -/
def catEx1 : Category :=
  { Category.new "c1" "General" "root" 0 with
    topics := [("t1", topicEx1)], mostRecentTopics := ["t1"] }

/-- A concrete application state holding catEx1, with empty address tables. -/
def stEx1 : AppState := ⟨[("c1", catEx1)], [], [], []⟩

/-- The same content, with the address mallory in the banned table. -/
def stEx2 : AppState := ⟨[("c1", catEx1)], ["mallory"], [], []⟩

/-- The same content, with the address mod in the moderators table. -/
def stEx10 : AppState := ⟨[("c1", catEx1)], [], ["mod"], []⟩

/-- The blanking performed by post soft deletion: clear the body, clear the
edit history, set the deleted flag; everything else (id, creator, creation
time, likes) is kept. -/
def blankPost (p : Message) : Message :=
  { p with message := "", messageEditHistory := [], messageDeleted := true }

/-- A soft-deleted post: blank body, cleared history, deleted flag set. -/
def postEx9 : Message :=
  { id := "p", message := "", messageDeleted := true, createdBy := "alice",
    createdAt := 0, likes := [], messageEditHistory := [] }

/-- A topic whose only post is soft deleted. -/
def topicEx9 : Topic := { Topic.new "t" "T" "body" "c" "alice" 0 with posts := [postEx9] }

/-- A category holding topicEx9. -/
def catEx9 : Category := { Category.new "c" "General" "admin" 0 with topics := [("t", topicEx9)] }

/-- An application state holding catEx9. -/
def stEx9 : AppState := ⟨[("c", catEx9)], [], [], []⟩

/-! Bridge lemmas between the Bool scans of the source and membership. -/

lemma checkIfBanned_iff (st : AppState) (a : String) :
    checkIfBanned st a = true ↔ a ∈ st.bannedAddressesStorage := by
  simp only [checkIfBanned, List.any_eq_true, beq_iff_eq]
  constructor
  · rintro ⟨x, hx, rfl⟩; exact hx
  · intro h; exact ⟨a, h, rfl⟩

lemma checkIfBanned_eq_false_iff (st : AppState) (a : String) :
    checkIfBanned st a = false ↔ a ∉ st.bannedAddressesStorage := by
  rw [← Bool.not_eq_true, not_iff_not]
  exact checkIfBanned_iff st a

lemma checkIfAdmin_of_mem {st : AppState} {a : String} (h : a ∈ st.adminsStorage) :
    checkIfAdmin st a = true := by
  simp only [checkIfAdmin, List.any_eq_true]
  exact ⟨a, h, by simp⟩

lemma checkIfModerator_of_mem {st : AppState} {a : String} (h : a ∈ st.moderatorsStorage) :
    checkIfModerator st a = true := by
  simp only [checkIfModerator, List.any_eq_true]
  exact ⟨a, h, by simp⟩

/-! Per-operation preservation of RegInv (with the safety side condition on
the two staff-granting operations). -/

lemma regInv_addAdmin {st : AppState} {a c : String} (h : RegInv st)
    (hb : checkIfBanned st a = false) : RegInv (addAdmin a c st).2 := by
  have hnb : a ∉ st.bannedAddressesStorage := (checkIfBanned_eq_false_iff st a).mp hb
  unfold addAdmin
  split_ifs with h1 h2
  · exact h
  · exact h
  · intro x hx
    have hx' : x ∈ st.bannedAddressesStorage := hx
    obtain ⟨hxa, hxm⟩ := h x hx'
    refine ⟨?_, hxm⟩
    simp only [List.mem_append, List.mem_singleton]
    rintro (hmem | rfl)
    · exact hxa hmem
    · exact hnb hx'

lemma regInv_addModerator {st : AppState} {a c : String} (h : RegInv st)
    (hb : checkIfBanned st a = false) : RegInv (addModerator a c st).2 := by
  have hnb : a ∉ st.bannedAddressesStorage := (checkIfBanned_eq_false_iff st a).mp hb
  unfold addModerator
  split_ifs with h1 h2
  · exact h
  · exact h
  · intro x hx
    have hx' : x ∈ st.bannedAddressesStorage := hx
    obtain ⟨hxa, hxm⟩ := h x hx'
    refine ⟨hxa, ?_⟩
    simp only [List.mem_append, List.mem_singleton]
    rintro (hmem | rfl)
    · exact hxm hmem
    · exact hnb hx'

lemma regInv_removeAdmin {st : AppState} {a c : String} (h : RegInv st) :
    RegInv (removeAdmin a c st).2 := by
  unfold removeAdmin
  split_ifs with h1 h2
  · exact h
  · intro x hx
    obtain ⟨hxa, hxm⟩ := h x hx
    exact ⟨fun hmem => hxa (List.mem_of_mem_erase hmem), hxm⟩
  · exact h

lemma regInv_removeModerator {st : AppState} {a c : String} (h : RegInv st) :
    RegInv (removeModerator a c st).2 := by
  unfold removeModerator
  split_ifs with h1 h2
  · exact h
  · intro x hx
    obtain ⟨hxa, hxm⟩ := h x hx
    exact ⟨hxa, fun hmem => hxm (List.mem_of_mem_erase hmem)⟩
  · exact h

lemma regInv_ban {st : AppState} {a c : String} (h : RegInv st) :
    RegInv (banAddress a c st).2 := by
  unfold banAddress
  split_ifs with h1 h2 h3
  · exact h
  · exact h
  · exact h
  · intro x hx
    have hx' : x ∈ st.bannedAddressesStorage ++ [a] := hx
    rw [List.mem_append, List.mem_singleton] at hx'
    rcases hx' with hmem | rfl
    · exact h x hmem
    · constructor
      · intro hmem
        have hmem' : x ∈ st.adminsStorage := hmem
        exact h2 (by rw [Bool.or_eq_true]; exact Or.inl (checkIfAdmin_of_mem hmem'))
      · intro hmem
        have hmem' : x ∈ st.moderatorsStorage := hmem
        exact h2 (by rw [Bool.or_eq_true]; exact Or.inr (checkIfModerator_of_mem hmem'))

lemma regInv_unban {st : AppState} {a c : String} (h : RegInv st) :
    RegInv (unbanAddress a c st).2 := by
  unfold unbanAddress
  split_ifs with h1 h2
  · exact h
  · intro x hx
    exact h x (List.mem_of_mem_erase hx)
  · exact h

instance (st : AppState) : Decidable (RegInv st) := by
  unfold RegInv; infer_instance

/-- C4: banAddress performs its checks in this order: first the caller must
be admin or moderator (else the Forbidden-class error string about
authorization), then the target must not itself be admin or moderator (else
the Forbidden-class staff error), then the target must not already be
banned (else the Conflict-class already-banned error); only then is the
target inserted into the banned table. Every failing call leaves the state
unchanged. -/
theorem C4_banAddress_check_order (address caller : String) (st : AppState) :
    (¬(checkIfAdmin st caller = true ∨ checkIfModerator st caller = true) →
      banAddress address caller st = (.err "You are not authorized to ban this address", st)) ∧
    ((checkIfAdmin st caller = true ∨ checkIfModerator st caller = true) →
      (checkIfAdmin st address = true ∨ checkIfModerator st address = true) →
      banAddress address caller st = (.err "Cannot ban an admin or moderator", st)) ∧
    ((checkIfAdmin st caller = true ∨ checkIfModerator st caller = true) →
      ¬(checkIfAdmin st address = true ∨ checkIfModerator st address = true) →
      address ∈ st.bannedAddressesStorage →
      banAddress address caller st = (.err "Address is already banned", st)) ∧
    ((checkIfAdmin st caller = true ∨ checkIfModerator st caller = true) →
      ¬(checkIfAdmin st address = true ∨ checkIfModerator st address = true) →
      address ∉ st.bannedAddressesStorage →
      banAddress address caller st =
        (.ok address,
         { st with bannedAddressesStorage := st.bannedAddressesStorage ++ [address] })) := by
  refine ⟨?_, ?_, ?_, ?_⟩
  · intro h
    obtain ⟨ha, hm⟩ := not_or.mp h
    have ha' : checkIfAdmin st caller = false := by
      revert ha; cases checkIfAdmin st caller <;> simp
    have hm' : checkIfModerator st caller = false := by
      revert hm; cases checkIfModerator st caller <;> simp
    simp [banAddress, ha', hm']
  · intro h hstaff
    have h1 : (!(checkIfAdmin st caller) && !(checkIfModerator st caller)) = false := by
      rcases h with h' | h' <;> simp [h']
    have h2 : (checkIfAdmin st address || checkIfModerator st address) = true := by
      rcases hstaff with h' | h' <;> simp [h']
    simp [banAddress, h1, h2]
  · intro h hstaff hmem
    have h1 : (!(checkIfAdmin st caller) && !(checkIfModerator st caller)) = false := by
      rcases h with h' | h' <;> simp [h']
    obtain ⟨ha, hm⟩ := not_or.mp hstaff
    have ha' : checkIfAdmin st address = false := by
      revert ha; cases checkIfAdmin st address <;> simp
    have hm' : checkIfModerator st address = false := by
      revert hm; cases checkIfModerator st address <;> simp
    have hb : checkIfBanned st address = true := (checkIfBanned_iff st address).mpr hmem
    simp [banAddress, h1, ha', hm', hb]
  · intro h hstaff hnmem
    have h1 : (!(checkIfAdmin st caller) && !(checkIfModerator st caller)) = false := by
      rcases h with h' | h' <;> simp [h']
    obtain ⟨ha, hm⟩ := not_or.mp hstaff
    have ha' : checkIfAdmin st address = false := by
      revert ha; cases checkIfAdmin st address <;> simp
    have hm' : checkIfModerator st address = false := by
      revert hm; cases checkIfModerator st address <;> simp
    have hb : checkIfBanned st address = false := (checkIfBanned_eq_false_iff st address).mpr hnmem
    simp [banAddress, h1, ha', hm', hb]

/-- C4 witness: with admin a, banning the fresh address x runs the final
branch and stores x in the banned table. -/
theorem C4_banAddress_check_order_witness :
    banAddress "x" "a" (AppState.mk [] [] [] ["a"]) =
      (.ok "x", AppState.mk [] ["x"] [] ["a"]) := by
  have h := (C4_banAddress_check_order "x" "a" (AppState.mk [] [] [] ["a"])).2.2.2
    (Or.inl (by decide)) (by decide) (by decide)
  simpa using h

/-- C3 counterexample: the claimed invariant is not preserved by the
registry operations. From a state with one admin a and empty banned set
(which satisfies the invariant), the sequence ban x, addModerator x (both
performed by a and both succeeding in the source code, because addModerator
never consults the banned table) reaches a state in which x is both banned
and a moderator. -/
theorem C3_counterexample :
    ¬(∀ st : AppState, RegInv st → ∀ ops : List RegOp, RegInv (runRegOps st ops)) := by
  intro h
  have h2 := h (AppState.mk [] [] [] ["a"]) (by decide)
    [.banOp "x" "a", .addModeratorOp "x" "a"]
  exact absurd h2 (by decide)

/-- C3 amended: the registry operations preserve disjointness of the banned
set from the admin and moderator sets along every trace in which no
addAdmin or addModerator call targets an address banned at the moment of
the call; ban itself refuses staff targets, and the removal operations only
shrink their tables. (Unrestricted addAdmin/addModerator can break the
invariant, as the counterexample shows.) -/
theorem C3_banned_disjoint_staff_safe (st : AppState) (ops : List RegOp)
    (hinv : RegInv st) (hsafe : safeTrace st ops = true) :
    RegInv (runRegOps st ops) := by
  induction ops generalizing st with
  | nil => exact hinv
  | cons op rest ih =>
    cases op with
    | addAdminOp a c =>
        have h' : ((!(checkIfBanned st a)) &&
            safeTrace (applyRegOp st (RegOp.addAdminOp a c)) rest) = true := hsafe
        rw [Bool.and_eq_true] at h'
        exact ih _ (regInv_addAdmin hinv (by simpa using h'.1)) h'.2
    | addModeratorOp a c =>
        have h' : ((!(checkIfBanned st a)) &&
            safeTrace (applyRegOp st (RegOp.addModeratorOp a c)) rest) = true := hsafe
        rw [Bool.and_eq_true] at h'
        exact ih _ (regInv_addModerator hinv (by simpa using h'.1)) h'.2
    | removeAdminOp a c =>
        have h' : (true &&
            safeTrace (applyRegOp st (RegOp.removeAdminOp a c)) rest) = true := hsafe
        rw [Bool.and_eq_true] at h'
        exact ih _ (regInv_removeAdmin hinv) h'.2
    | removeModeratorOp a c =>
        have h' : (true &&
            safeTrace (applyRegOp st (RegOp.removeModeratorOp a c)) rest) = true := hsafe
        rw [Bool.and_eq_true] at h'
        exact ih _ (regInv_removeModerator hinv) h'.2
    | banOp a c =>
        have h' : (true &&
            safeTrace (applyRegOp st (RegOp.banOp a c)) rest) = true := hsafe
        rw [Bool.and_eq_true] at h'
        exact ih _ (regInv_ban hinv) h'.2
    | unbanOp a c =>
        have h' : (true &&
            safeTrace (applyRegOp st (RegOp.unbanOp a c)) rest) = true := hsafe
        rw [Bool.and_eq_true] at h'
        exact ih _ (regInv_unban hinv) h'.2

/-- C3 witness: a concrete safe trace (admin a bans x, then unbans x) along
which the invariant is preserved. -/
theorem C3_banned_disjoint_staff_safe_witness :
    RegInv (AppState.mk [] [] [] ["a"]) ∧
    safeTrace (AppState.mk [] [] [] ["a"]) [.banOp "x" "a", .unbanOp "x" "a"] = true ∧
    RegInv (runRegOps (AppState.mk [] [] [] ["a"]) [.banOp "x" "a", .unbanOp "x" "a"]) :=
  ⟨by decide, by decide,
   C3_banned_disjoint_staff_safe _ _ (by decide) (by decide)⟩

lemma findIdx_none_of_not_mem {l : List String} {c : String} (h : c ∉ l) :
    l.findIdx? (fun element => element == c) = none := by
  rw [List.findIdx?_eq_none_iff]
  intro x hx
  exact beq_eq_false_iff_ne.mpr (fun hEq => h (hEq ▸ hx))

/-- C6 counterexample: when the caller already likes the message, the
like call is refused but the following unlike still removes the existing
like, so the round trip does not restore the pre-like state. Here the
message starts with likes = [a]; after like then unlike by a, the like set
is empty, not [a]. -/
theorem C6_counterexample :
    (likeOrUnlikeMessage (likeOrUnlikeMessage ["a"] "a" true).2 "a" false).2 ≠ ["a"] := by
  decide

/-- C6 amended: for a caller not already present in the like set, the like
call succeeds and appends the caller, the following unlike succeeds and
returns the like set to its exact pre-like state, and a second like
without an intervening unlike is refused (Conflict, already liked) leaving
the like set unchanged. When the caller is already present the like call is
refused, but the unlike still removes the existing like (see the
counterexample). -/
theorem C6_like_unlike_round_trip (likes : List String) (caller : String)
    (h : caller ∉ likes) :
    likeOrUnlikeMessage likes caller true = (true, likes ++ [caller]) ∧
    likeOrUnlikeMessage (likes ++ [caller]) caller false = (true, likes) ∧
    likeOrUnlikeMessage (likes ++ [caller]) caller true = (false, likes ++ [caller]) := by
  have hnone := findIdx_none_of_not_mem h
  have happ : (likes ++ [caller]).findIdx? (fun element => element == caller)
      = some likes.length := by
    rw [List.findIdx?_append, hnone]
    simp [List.findIdx?_cons]
  refine ⟨?_, ?_, ?_⟩
  · simp [likeOrUnlikeMessage, hnone]
  · simp only [likeOrUnlikeMessage, happ]
    rw [List.eraseIdx_append_of_length_le (le_refl _)]
    simp
  · simp [likeOrUnlikeMessage, happ]

/-- C6 witness: the amended round trip at likes = [a], caller b. -/
theorem C6_like_unlike_round_trip_witness :
    likeOrUnlikeMessage ["a"] "b" true = (true, ["a", "b"]) ∧
    likeOrUnlikeMessage ["a", "b"] "b" false = (true, ["a"]) ∧
    likeOrUnlikeMessage ["a", "b"] "b" true = (false, ["a", "b"]) := by
  have h := C6_like_unlike_round_trip ["a"] "b" (by decide)
  exact ⟨by simpa using h.1, by simpa using h.2.1, by simpa using h.2.2⟩

lemma applyEdits_spec (m : Message) (es : List (Nat × String)) :
    (applyEdits m es).messageEditHistory =
      m.messageEditHistory ++ priorBodies m.message es ∧
    (applyEdits m es).message = (es.map Prod.snd).getLastD m.message := by
  induction es generalizing m with
  | nil => simp [applyEdits, priorBodies]
  | cons e rest ih =>
      obtain ⟨t, s⟩ := e
      have h := ih (editMessage m t s)
      constructor
      · rw [applyEdits, h.1]
        simp [editMessage, priorBodies]
      · rw [applyEdits, h.2]
        have hs : (editMessage m t s).message = s := rfl
        rw [hs, List.map_cons, List.getLastD_cons]

lemma priorBodies_length (b : String) (es : List (Nat × String)) :
    (priorBodies b es).length = es.length := by
  induction es generalizing b with
  | nil => rfl
  | cons e rest ih =>
      obtain ⟨t, s⟩ := e
      simp [priorBodies, ih]

lemma priorBodies_map_snd (b : String) (es : List (Nat × String)) :
    (priorBodies b es).map Prod.snd = (b :: es.map Prod.snd).dropLast := by
  induction es generalizing b with
  | nil => rfl
  | cons e rest ih =>
      obtain ⟨t, s⟩ := e
      rw [priorBodies, List.map_cons, ih s, List.map_cons,
        List.dropLast_cons_of_ne_nil (List.cons_ne_nil s (rest.map Prod.snd))]

/-- C7: starting from an empty edit history, applying N body edits yields a
history of length N whose successive entries carry, in order, the body in
force immediately before each edit (the original body, then each submitted
value but the last), and the final body is the last submitted value. -/
theorem C7_edit_history (m : Message) (es : List (Nat × String))
    (h0 : m.messageEditHistory = []) :
    (applyEdits m es).messageEditHistory.length = es.length ∧
    (applyEdits m es).messageEditHistory.map Prod.snd =
      (m.message :: es.map Prod.snd).dropLast ∧
    (es ≠ [] → (es.map Prod.snd).getLast? = some ((applyEdits m es).message)) := by
  obtain ⟨h1, h2⟩ := applyEdits_spec m es
  refine ⟨?_, ?_, ?_⟩
  · rw [h1, h0]
    simp [priorBodies_length]
  · rw [h1, h0]
    simp [priorBodies_map_snd]
  · intro hne
    rw [h2]
    have hmapne : es.map Prod.snd ≠ [] := by
      simpa using hne
    obtain ⟨y, hy⟩ := Option.ne_none_iff_exists'.mp
      (mt List.getLast?_eq_none_iff.mp hmapne)
    rw [hy, List.getLastD_eq_getLast?, hy]
    rfl

lemma foldl_pushUnique_split (l acc : List String) :
    ∃ t, l.foldl pushUnique acc = acc ++ t ∧ ∀ x ∈ t, x ∉ acc ∧ x ∈ l := by
  induction l generalizing acc with
  | nil => exact ⟨[], by simp, by simp⟩
  | cons a rest ih =>
      rw [List.foldl_cons]
      by_cases ha : a ∈ acc
      · obtain ⟨t, h1, h2⟩ := ih acc
        rw [pushUnique, if_pos ha]
        exact ⟨t, h1, fun x hx => ⟨(h2 x hx).1, List.mem_cons_of_mem a (h2 x hx).2⟩⟩
      · obtain ⟨t, h1, h2⟩ := ih (acc ++ [a])
        rw [pushUnique, if_neg ha]
        refine ⟨a :: t, by simpa using h1, ?_⟩
        intro x hx
        rcases List.mem_cons.mp hx with rfl | hxt
        · exact ⟨ha, List.mem_cons_self x rest⟩
        · obtain ⟨hnot, hmem⟩ := h2 x hxt
          rw [List.mem_append] at hnot
          push_neg at hnot
          exact ⟨hnot.1, List.mem_cons_of_mem a hmem⟩

lemma mem_foldl_pushUnique (l acc : List String) (x : String) :
    x ∈ l.foldl pushUnique acc ↔ x ∈ acc ∨ x ∈ l := by
  induction l generalizing acc with
  | nil => simp
  | cons a rest ih =>
      rw [List.foldl_cons, ih, pushUnique]
      split_ifs with ha
      · constructor
        · rintro (h | h)
          · exact Or.inl h
          · exact Or.inr (List.mem_cons_of_mem a h)
        · rintro (h | h)
          · exact Or.inl h
          · rcases List.mem_cons.mp h with rfl | h'
            · exact Or.inl ha
            · exact Or.inr h'
      · simp only [List.mem_append, List.mem_singleton, List.mem_cons]
        tauto

lemma nodup_foldl_pushUnique (l : List String) (acc : List String) (h : acc.Nodup) :
    (l.foldl pushUnique acc).Nodup := by
  induction l generalizing acc with
  | nil => exact h
  | cons a rest ih =>
      rw [List.foldl_cons]
      apply ih
      rw [pushUnique]
      split_ifs with ha
      · exact h
      · exact List.nodup_append_comm.mp (List.nodup_cons.mpr ⟨ha, h⟩)

lemma foldl_pushUnique_all_fresh (p : List String) :
    ∀ acc : List String, p.Nodup → (∀ x ∈ p, x ∉ acc) →
      p.foldl pushUnique acc = acc ++ p := by
  induction p with
  | nil => intro acc _ _; simp
  | cons a rest ih =>
      intro acc hp hdisj
      rw [List.foldl_cons, pushUnique, if_neg (hdisj a (List.mem_cons_self a rest))]
      rw [ih (acc ++ [a]) (List.nodup_cons.mp hp).2 ?_]
      · simp
      · intro x hx
        rw [List.mem_append, List.mem_singleton]
        push_neg
        refine ⟨hdisj x (List.mem_cons_of_mem a hx), ?_⟩
        rintro rfl
        exact (List.nodup_cons.mp hp).1 hx

/-- C5: listTopics (sortTopicsByActivityAndPin) is pinnedTopics followed by
mostRecentTopics, de-duplicated keeping the first occurrence: the result
has no duplicate ids, contains exactly the ids of the two lists, every
occurrence of a pinnedTopics id precedes every id not in pinnedTopics, and
when pinnedTopics has no duplicates (the maintained invariant) the result
starts with pinnedTopics itself, so a topic both pinned and recently
active appears once, in its pinned position. -/
theorem C5_listTopics (category : Category) :
    (sortTopicsByActivityAndPin category).Nodup ∧
    (∀ x, x ∈ sortTopicsByActivityAndPin category ↔
      x ∈ category.pinnedTopics ∨ x ∈ category.mostRecentTopics) ∧
    (∀ i j (hi : i < (sortTopicsByActivityAndPin category).length)
        (hj : j < (sortTopicsByActivityAndPin category).length),
      (sortTopicsByActivityAndPin category).get ⟨i, hi⟩ ∈ category.pinnedTopics →
      (sortTopicsByActivityAndPin category).get ⟨j, hj⟩ ∉ category.pinnedTopics →
      i < j) ∧
    (category.pinnedTopics.Nodup →
      (sortTopicsByActivityAndPin category).take category.pinnedTopics.length
        = category.pinnedTopics) := by
  set p := category.pinnedTopics with hp
  set r := category.mostRecentTopics with hr
  have hfold : sortTopicsByActivityAndPin category
      = r.foldl pushUnique (p.foldl pushUnique []) := by
    rw [sortTopicsByActivityAndPin, List.foldl_append]
  set P := p.foldl pushUnique [] with hPdef
  have hPmem : ∀ x, x ∈ P ↔ x ∈ p := by
    intro x
    rw [hPdef, mem_foldl_pushUnique]
    simp
  obtain ⟨T, hT, hTprop⟩ := foldl_pushUnique_split r P
  have hout : sortTopicsByActivityAndPin category = P ++ T := by rw [hfold, hT]
  refine ⟨?_, ?_, ?_, ?_⟩
  · rw [hfold]
    exact nodup_foldl_pushUnique r P (nodup_foldl_pushUnique p [] List.nodup_nil)
  · intro x
    rw [hfold, mem_foldl_pushUnique, hPmem]
  · intro i j hi hj hip hjp
    have hi' : i < (P ++ T).length := by rw [← hout]; exact hi
    have hj' : j < (P ++ T).length := by rw [← hout]; exact hj
    have hiP : i < P.length := by
      by_contra hge
      push_neg at hge
      have hmem : (sortTopicsByActivityAndPin category).get ⟨i, hi⟩ ∈ T := by
        have : (sortTopicsByActivityAndPin category).get ⟨i, hi⟩
            = T.get ⟨i - P.length, by rw [List.length_append] at hi'; omega⟩ := by
          rw [List.get_eq_getElem, List.get_eq_getElem]
          conv in sortTopicsByActivityAndPin category => rw [hout]
          exact List.getElem_append_right hge
        rw [this]
        exact T.get_mem _ _
      exact ((hTprop _ hmem).1 ((hPmem _).mpr hip))
    have hjP : P.length ≤ j := by
      by_contra hlt
      push_neg at hlt
      have hmem : (sortTopicsByActivityAndPin category).get ⟨j, hj⟩ ∈ P := by
        have : (sortTopicsByActivityAndPin category).get ⟨j, hj⟩
            = P.get ⟨j, hlt⟩ := by
          rw [List.get_eq_getElem, List.get_eq_getElem]
          conv in sortTopicsByActivityAndPin category => rw [hout]
          exact List.getElem_append_left hlt
        rw [this]
        exact P.get_mem _ _
      exact hjp ((hPmem _).mp hmem)
    omega
  · intro hnd
    have hPp : P = p := by
      rw [hPdef, foldl_pushUnique_all_fresh p [] hnd (by simp)]
      simp
    rw [hout, hPp, List.take_left]

lemma keys_map_ite {α : Type} (l : List (String × α)) (k : String) (f : α → α) :
    (l.map (fun e => if e.1 == k then (e.1, f e.2) else e)).map Prod.fst
      = l.map Prod.fst := by
  rw [List.map_map]
  apply List.map_congr_left
  intro e _
  by_cases he : (e.1 == k) = true
  · simp [Function.comp, he, eq_of_beq he]
  · simp [Function.comp, he]

lemma keys_map_ite_const {α : Type} (l : List (String × α)) (k : String) (v : α) :
    (l.map (fun e => if e.1 == k then (k, v) else e)).map Prod.fst = l.map Prod.fst := by
  rw [List.map_map]
  apply List.map_congr_left
  intro e _
  by_cases he : (e.1 == k) = true
  · simp [Function.comp, he, eq_of_beq he]
  · simp [Function.comp, he]

lemma mem_map_ite {α : Type} {l : List (String × α)} {k : String} {f : α → α}
    {e' : String × α}
    (h : e' ∈ l.map (fun e => if e.1 == k then (e.1, f e.2) else e)) :
    ∃ e ∈ l, ((e.1 == k) = false ∧ e' = e) ∨ ((e.1 == k) = true ∧ e' = (e.1, f e.2)) := by
  obtain ⟨e, hmem, heq⟩ := List.mem_map.mp h
  refine ⟨e, hmem, ?_⟩
  by_cases he : (e.1 == k) = true
  · right
    exact ⟨he, by rw [← heq, if_pos he]⟩
  · left
    refine ⟨?_, by rw [← heq, if_neg he]⟩
    cases hb : (e.1 == k) with
    | false => rfl
    | true => exact absurd hb he

lemma find_eq_of_keysNodup {α : Type} {l : List (String × α)}
    (hnd : (l.map Prod.fst).Nodup) {e : String × α} (he : e ∈ l) :
    l.find? (fun x => x.1 == e.1) = some e := by
  induction l with
  | nil => cases he
  | cons x xs ih =>
      rw [List.map_cons, List.nodup_cons] at hnd
      rcases List.mem_cons.mp he with rfl | hmem
      · rw [List.find?_cons_of_pos _ (by simp)]
      · have hne : ¬((x.1 == e.1) = true) := by
          intro hx
          apply hnd.1
          rw [eq_of_beq hx]
          exact List.mem_map.mpr ⟨e, hmem, rfl⟩
        have hstep : List.find? (fun y => y.1 == e.1) (x :: xs)
            = List.find? (fun y => y.1 == e.1) xs := List.find?_cons_of_neg _ hne
        rw [hstep]
        exact ih hnd.2 hmem

lemma eraseIdx_findIdx_erase {a : String} : ∀ {l : List String} {i : Nat},
    l.findIdx? (fun x => x == a) = some i → l.eraseIdx i = l.erase a := by
  intro l
  induction l with
  | nil => intro i h; cases h
  | cons x xs ih =>
      intro i h
      rw [List.findIdx?_cons] at h
      by_cases hx : (x == a) = true
      · rw [if_pos hx] at h
        injection h with hi
        rw [← hi]
        simp [List.erase_cons, hx]
      · rw [if_neg hx, List.findIdx?_succ] at h
        cases hfx : xs.findIdx? (fun x => x == a) with
        | none => rw [hfx] at h; cases h
        | some j =>
            rw [hfx] at h
            injection h with hi
            rw [← hi]
            simp [List.erase_cons, hx, List.eraseIdx_cons_succ, ih hfx]

lemma mem_of_findIdx_eq_some {l : List String} {a : String} {i : Nat}
    (h : l.findIdx? (fun x => x == a) = some i) : a ∈ l := by
  by_contra hmem
  rw [findIdx_none_of_not_mem hmem] at h
  cases h

lemma not_mem_of_findIdx_none {l : List String} {a : String}
    (h : l.findIdx? (fun x => x == a) = none) : a ∉ l := by
  intro hmem
  have h2 := List.findIdx?_eq_none_iff.mp h a hmem
  simp at h2

lemma resolve_category_ok {st : AppState} {cid : String} {c : Category}
    (h : getCategoryOrTopicOrPost st cid none none = .ok (.category c)) :
    storageGet st.categoriesStorage cid = some c := by
  cases hg : storageGet st.categoriesStorage cid with
  | none =>
      have hr : getCategoryOrTopicOrPost st cid none none
          = .err ("Category with id=" ++ cid ++ " not found") := by
        simp [getCategoryOrTopicOrPost, hg]
      rw [hr] at h
      injection h
  | some c' =>
      have hr : getCategoryOrTopicOrPost st cid none none = .ok (.category c') := by
        simp [getCategoryOrTopicOrPost, hg]
      rw [hr] at h
      obtain rfl : c' = c := by injection h with h1; injection h1
      rfl

lemma resolve_topic_ok {st : AppState} {cid tid : String} {t : Topic}
    (h : getCategoryOrTopicOrPost st cid (some tid) none = .ok (.topic t)) :
    ∃ c, storageGet st.categoriesStorage cid = some c ∧ topicsGet c.topics tid = some t := by
  cases hg : storageGet st.categoriesStorage cid with
  | none =>
      have hr : getCategoryOrTopicOrPost st cid (some tid) none
          = .err ("Category with id=" ++ cid ++ " not found") := by
        simp [getCategoryOrTopicOrPost, hg]
      rw [hr] at h
      injection h
  | some c =>
      by_cases hts : (tid == "topics") = true
      · have hr : getCategoryOrTopicOrPost st cid (some tid) none
            = .ok (.topicsMap c.topics) := by
          simp [getCategoryOrTopicOrPost, hg, hts]
        rw [hr] at h
        injection h with h1
        injection h1
      · cases ht : topicsGet c.topics tid with
        | none =>
            have hr : getCategoryOrTopicOrPost st cid (some tid) none
                = .err ("Topic with id=" ++ tid ++ " not found") := by
              simp [getCategoryOrTopicOrPost, hg, hts, ht]
            rw [hr] at h
            injection h
        | some t' =>
            have hr : getCategoryOrTopicOrPost st cid (some tid) none
                = .ok (.topic t') := by
              simp [getCategoryOrTopicOrPost, hg, hts, ht]
            rw [hr] at h
            obtain rfl : t' = t := by injection h with h1; injection h1
            exact ⟨c, rfl, ht⟩

lemma topicsGet_some_mem {ts : List (String × Topic)} {k : String} {t : Topic}
    (h : topicsGet ts k = some t) : (k, t) ∈ ts := by
  unfold topicsGet at h
  cases hf : ts.find? (fun e => e.1 == k) with
  | none => rw [hf] at h; injection h
  | some e =>
      rw [hf] at h
      have hmem := List.mem_of_find?_eq_some hf
      have hkey := List.find?_some hf
      have he2 : e.2 = t := by injection h
      obtain ⟨e1, e2⟩ := e
      have hk : e1 = k := eq_of_beq hkey
      rw [← hk, ← he2]
      exact hmem

instance (c : Category) : Decidable (CatInv c) := by
  unfold CatInv; infer_instance

instance (st : AppState) : Decidable (PinInv st) := by
  unfold PinInv; infer_instance

lemma catInv_congr {c1 c2 : Category} (h : CatInv c1)
    (hp : c2.pinnedTopics = c1.pinnedTopics) (ht : c2.topics = c1.topics) : CatInv c2 := by
  unfold CatInv at h ⊢
  rw [hp, ht]
  exact h

lemma catInv_modifyTopic {c : Category} {tid : String} {g : Topic → Topic}
    (h : CatInv c) (hg : ∀ t, (g t).pinned = t.pinned ∧ (g t).id = t.id) :
    CatInv (modifyTopic c tid g) := by
  obtain ⟨h1, h2, h3, h4⟩ := h
  refine ⟨h1, ?_, ?_, ?_⟩
  · show ((c.topics.map (fun e => if e.1 == tid then (e.1, g e.2) else e)).map Prod.fst).Nodup
    rw [keys_map_ite]
    exact h2
  · intro te hte
    have hte2 : te ∈ c.topics.map (fun e => if e.1 == tid then (e.1, g e.2) else e) := hte
    obtain ⟨e, hmem, hcase⟩ := mem_map_ite hte2
    have hpt : (modifyTopic c tid g).pinnedTopics = c.pinnedTopics := rfl
    rcases hcase with ⟨_, rfl⟩ | ⟨_, rfl⟩
    · rw [hpt]
      exact h3 te hmem
    · obtain ⟨hgp, hgi⟩ := hg e.2
      obtain ⟨hid, hiff⟩ := h3 e hmem
      rw [hpt]
      exact ⟨by rw [hgi]; exact hid, by rw [hgp]; exact hiff⟩
  · intro pid hpid
    have hpid' : pid ∈ c.pinnedTopics := hpid
    obtain ⟨e, hmem, hkey⟩ := h4 pid hpid'
    refine ⟨(if e.1 == tid then (e.1, g e.2) else e), ?_, ?_⟩
    · exact List.mem_map.mpr ⟨e, hmem, rfl⟩
    · by_cases he : (e.1 == tid) = true
      · rw [if_pos he]; exact hkey
      · rw [if_neg he]; exact hkey

lemma catInv_acknowledge {c : Category} {tid : String} {now : Nat} (h : CatInv c) :
    CatInv (acknowledgeTopicActivity c tid now) :=
  catInv_congr
    (catInv_modifyTopic (g := fun t => { t with mostRecentActivity := now }) h
      (fun _ => ⟨rfl, rfl⟩)) rfl rfl

lemma catInv_new (id name createdBy : String) (now : Nat) :
    CatInv (Category.new id name createdBy now) := by
  refine ⟨List.nodup_nil, List.nodup_nil, ?_, ?_⟩
  · intro te hte; cases hte
  · intro pid hpid; cases hpid

lemma pinInv_updateCategory {st : AppState} {k : String} {F : Category → Category}
    (h : PinInv st)
    (hF : ∀ c, storageGet st.categoriesStorage k = some c → CatInv c → CatInv (F c)) :
    PinInv (updateCategory st k F) := by
  obtain ⟨hnd, hall⟩ := h
  constructor
  · show ((st.categoriesStorage.map (fun e => if e.1 == k then (e.1, F e.2) else e)).map
        Prod.fst).Nodup
    rw [keys_map_ite]
    exact hnd
  · intro e' he'
    have he2 : e' ∈ st.categoriesStorage.map
        (fun e => if e.1 == k then (e.1, F e.2) else e) := he'
    obtain ⟨e, hmem, hcase⟩ := mem_map_ite he2
    rcases hcase with ⟨_, rfl⟩ | ⟨hk, rfl⟩
    · exact hall e' hmem
    · have hget : storageGet st.categoriesStorage k = some e.2 := by
        unfold storageGet
        rw [← eq_of_beq hk, find_eq_of_keysNodup hnd hmem]
        rfl
      exact hF e.2 hget (hall e hmem)

lemma applyRegOp_categoriesStorage (st : AppState) (op : RegOp) :
    (applyRegOp st op).categoriesStorage = st.categoriesStorage := by
  cases op <;>
    simp only [applyRegOp, addAdmin, addModerator, removeAdmin, removeModerator,
      banAddress, unbanAddress] <;>
    split_ifs <;> rfl

lemma pinInv_of_categories_eq {st1 st2 : AppState}
    (h : st2.categoriesStorage = st1.categoriesStorage) (hp : PinInv st1) : PinInv st2 := by
  unfold PinInv at hp ⊢
  rw [h]
  exact hp

lemma catInv_addTopic {c : Category} {id : String} {topic : Topic}
    (h : CatInv c) (hfresh : (c.topics.any (fun e => e.1 == id)) = false)
    (hid : topic.id = id) (hpin : topic.pinned = false) :
    CatInv { c with topics := mapSet c.topics id topic } := by
  obtain ⟨h1, h2, h3, h4⟩ := h
  have hnotkey : ∀ e ∈ c.topics, (e.1 == id) = false := by
    intro e he
    cases hb : (e.1 == id) with
    | false => rfl
    | true =>
        exfalso
        have : c.topics.any (fun e => e.1 == id) = true :=
          List.any_eq_true.mpr ⟨e, he, hb⟩
        rw [this] at hfresh
        cases hfresh
  have hset : mapSet c.topics id topic = c.topics ++ [(id, topic)] := by
    unfold mapSet
    rw [if_neg (by rw [hfresh]; exact Bool.false_ne_true)]
  have hidnp : id ∉ c.pinnedTopics := by
    intro hidp
    obtain ⟨e, hmem, hkey⟩ := h4 id hidp
    have := hnotkey e hmem
    rw [hkey] at this
    simp at this
  refine ⟨h1, ?_, ?_, ?_⟩
  · show (({ c with topics := mapSet c.topics id topic }).topics.map Prod.fst).Nodup
    rw [hset, List.map_append]
    rw [List.nodup_append]
    refine ⟨h2, by simp, ?_⟩
    intro x hx hx2
    simp at hx2
    obtain ⟨e, hmem, hkey⟩ := List.mem_map.mp hx
    apply absurd (hnotkey e hmem)
    rw [hkey, hx2]
    simp
  · intro te hte
    have hte2 : te ∈ c.topics ++ [(id, topic)] := by
      have : te ∈ mapSet c.topics id topic := hte
      rw [hset] at this
      exact this
    rcases List.mem_append.mp hte2 with hmem | hnew
    · exact h3 te hmem
    · rw [List.mem_singleton] at hnew
      subst hnew
      refine ⟨hid, ?_⟩
      rw [hpin]
      constructor
      · intro hfalse; cases hfalse
      · intro hmem
        exact absurd hmem hidnp
  · intro pid hpid
    obtain ⟨e, hmem, hkey⟩ := h4 pid hpid
    refine ⟨e, ?_, hkey⟩
    show e ∈ mapSet c.topics id topic
    rw [hset]
    exact List.mem_append.mpr (Or.inl hmem)

lemma pinInv_storageSet_new (st : AppState) (id name createdBy : String) (now : Nat)
    (h : PinInv st) :
    PinInv { st with
      categoriesStorage :=
        storageSet st.categoriesStorage id (Category.new id name createdBy now) } := by
  obtain ⟨hnd, hall⟩ := h
  unfold storageSet
  by_cases hany : (st.categoriesStorage.any (fun e => e.1 == id)) = true
  · rw [if_pos hany]
    constructor
    · show ((st.categoriesStorage.map (fun e =>
          if e.1 == id then (id, Category.new id name createdBy now) else e)).map
          Prod.fst).Nodup
      rw [keys_map_ite_const]
      exact hnd
    · intro e' he'
      have he2 : e' ∈ st.categoriesStorage.map (fun e =>
          if e.1 == id then ((id, Category.new id name createdBy now) : String × Category)
          else e) := he'
      obtain ⟨e, hmem, heq⟩ := List.mem_map.mp he2
      by_cases he : (e.1 == id) = true
      · rw [if_pos he] at heq
        rw [← heq]
        exact catInv_new id name createdBy now
      · rw [if_neg he] at heq
        rw [← heq]
        exact hall e hmem
  · rw [if_neg hany]
    constructor
    · show ((st.categoriesStorage ++ [(id, Category.new id name createdBy now)]).map
          Prod.fst).Nodup
      rw [List.map_append, List.nodup_append]
      refine ⟨hnd, by simp, ?_⟩
      intro x hx hx2
      simp at hx2
      obtain ⟨e, hmem, hkey⟩ := List.mem_map.mp hx
      apply hany
      refine List.any_eq_true.mpr ⟨e, hmem, ?_⟩
      rw [hkey, hx2]
      simp
    · intro e' he'
      have he2 : e' ∈ st.categoriesStorage ++ [(id, Category.new id name createdBy now)] := he'
      rcases List.mem_append.mp he2 with hmem | hnew
      · exact hall e' hmem
      · rw [List.mem_singleton] at hnew
        rw [hnew]
        exact catInv_new id name createdBy now

lemma pinInv_eraseP (st : AppState) (categoryid : String) (h : PinInv st) :
    PinInv { st with
      categoriesStorage := st.categoriesStorage.eraseP (fun e => e.1 == categoryid) } := by
  obtain ⟨hnd, hall⟩ := h
  constructor
  · show ((st.categoriesStorage.eraseP (fun e => e.1 == categoryid)).map Prod.fst).Nodup
    exact ((List.eraseP_sublist st.categoriesStorage).map Prod.fst).nodup hnd
  · intro e' he'
    exact hall e' ((List.eraseP_sublist st.categoriesStorage).subset he')

lemma pinInv_updateCategory_all {st : AppState} {k : String} {F : Category → Category}
    (h : PinInv st) (hF : ∀ c, CatInv c → CatInv (F c)) :
    PinInv (updateCategory st k F) :=
  pinInv_updateCategory h (fun c _ hc => hF c hc)

lemma catInv_setPinnedTopics {c : Category} {tid : String} {t : Topic} {pinnedNew : List String}
    (hc : CatInv c) (hmem : (tid, t) ∈ c.topics) (shouldPin : Bool)
    (hnd' : pinnedNew.Nodup)
    (hiff_t : shouldPin = true ↔ tid ∈ pinnedNew)
    (hiff_other : ∀ k, k ≠ tid → (k ∈ pinnedNew ↔ k ∈ c.pinnedTopics))
    (hsub : ∀ p ∈ pinnedNew, p ∈ c.pinnedTopics ∨ p = tid) :
    CatInv (modifyTopic { c with pinnedTopics := pinnedNew } tid (setPinnedFlag shouldPin)) := by
  obtain ⟨h1, h2, h3, h4⟩ := hc
  refine ⟨hnd', ?_, ?_, ?_⟩
  · show ((c.topics.map (fun e =>
        if e.1 == tid then (e.1, setPinnedFlag shouldPin e.2) else e)).map
        Prod.fst).Nodup
    rw [keys_map_ite]
    exact h2
  · intro te hte
    have hte2 : te ∈ c.topics.map (fun e =>
        if e.1 == tid then (e.1, setPinnedFlag shouldPin e.2) else e) := hte
    obtain ⟨e, hmem2, hcase⟩ := mem_map_ite hte2
    rcases hcase with ⟨hne, rfl⟩ | ⟨hk, rfl⟩
    · obtain ⟨hid, hiff⟩ := h3 te hmem2
      refine ⟨hid, ?_⟩
      have hkne : te.1 ≠ tid := by
        intro hh
        rw [hh] at hne
        simp at hne
      exact hiff.trans (hiff_other te.1 hkne).symm
    · obtain ⟨hid, _⟩ := h3 e hmem2
      refine ⟨hid, ?_⟩
      rw [eq_of_beq hk]
      exact hiff_t
  · intro pid hpid
    rcases hsub pid hpid with holdp | rfl
    · obtain ⟨e, hmem2, hkey⟩ := h4 pid holdp
      refine ⟨(if e.1 == tid then (e.1, setPinnedFlag shouldPin e.2) else e),
        List.mem_map.mpr ⟨e, hmem2, rfl⟩, ?_⟩
      by_cases he : (e.1 == tid) = true
      · rw [if_pos he]
        exact hkey
      · rw [if_neg he]
        exact hkey
    · refine ⟨(if (pid, t).1 == pid then ((pid, t).1, setPinnedFlag shouldPin (pid, t).2)
          else (pid, t)),
        List.mem_map.mpr ⟨(pid, t), hmem, rfl⟩, ?_⟩
      simp

lemma catInv_pin {c : Category} {tid : String} {t : Topic} (hc : CatInv c)
    (htop : topicsGet c.topics tid = some t) (shouldPin : Bool) :
    CatInv (modifyTopic
      { c with pinnedTopics :=
          match c.pinnedTopics.findIdx? (fun element => element == t.id) with
          | some pinnedTopicsIndex =>
              if !shouldPin then c.pinnedTopics.eraseIdx pinnedTopicsIndex
              else c.pinnedTopics
          | none =>
              if shouldPin then c.pinnedTopics ++ [t.id]
              else c.pinnedTopics }
      tid (setPinnedFlag shouldPin)) := by
  have hmem : (tid, t) ∈ c.topics := topicsGet_some_mem htop
  have htid : t.id = tid := (hc.2.2.1 (tid, t) hmem).1
  have h1 : c.pinnedTopics.Nodup := hc.1
  cases hfi : c.pinnedTopics.findIdx? (fun element => element == t.id) with
  | some i =>
      have hmemP : tid ∈ c.pinnedTopics := htid ▸ mem_of_findIdx_eq_some hfi
      cases shouldPin with
      | true =>
          simp only [Bool.not_true, Bool.false_eq_true, if_false]
          exact catInv_setPinnedTopics hc hmem true h1 (by simp [hmemP])
            (fun k _ => Iff.rfl) (fun p hp => Or.inl hp)
      | false =>
          simp only [Bool.not_false, if_true]
          rw [eraseIdx_findIdx_erase hfi]
          refine catInv_setPinnedTopics hc hmem false ((h1.erase t.id)) ?_ ?_ ?_
          · constructor
            · intro hfalse; cases hfalse
            · intro hmem2
              rw [← htid] at hmem2
              exact absurd hmem2 (h1.not_mem_erase)
          · intro k hk
            rw [← htid] at hk
            exact List.mem_erase_of_ne hk
          · intro p hp
            exact Or.inl (List.erase_subset _ _ hp)
  | none =>
      have hnotP : tid ∉ c.pinnedTopics := htid ▸ not_mem_of_findIdx_none hfi
      cases shouldPin with
      | true =>
          simp only [if_true]
          rw [htid]
          refine catInv_setPinnedTopics hc hmem true ?_ ?_ ?_ ?_
          · rw [List.nodup_append]
            refine ⟨h1, by simp, ?_⟩
            intro x hx hx2
            rw [List.mem_singleton] at hx2
            rw [hx2] at hx
            exact hnotP hx
          · simp
          · intro k hk
            rw [List.mem_append, List.mem_singleton]
            constructor
            · rintro (hmem2 | rfl)
              · exact hmem2
              · exact absurd rfl hk
            · exact Or.inl
          · intro p hp
            rcases List.mem_append.mp hp with hmem2 | hone
            · exact Or.inl hmem2
            · exact Or.inr (List.mem_singleton.mp hone)
      | false =>
          simp only [Bool.false_eq_true, if_false]
          exact catInv_setPinnedTopics hc hmem false
            h1 (by simp [hnotP]) (fun k _ => Iff.rfl) (fun p hp => Or.inl hp)

lemma snd_ite_pair {P : Prop} [Decidable P] (x y : HttpRes) (s : AppState) :
    (if P then (x, s) else (y, s)).2 = s := by
  split_ifs <;> rfl

lemma pinInv_applyAppOp (st : AppState) (now : Nat) (op : AppOp) (h : PinInv st)
    (hg : createTopicGuard st op = true) :
    PinInv (applyAppOp st now op) := by
  cases op with
  | createCategoryOp name id caller =>
      show PinInv (createCategoryRoute st name id caller now).2
      cases hval : validateCategoryInput name with
      | some msg =>
          simp only [createCategoryRoute, hval]
          exact h
      | none =>
          cases name with
          | none =>
              simp only [createCategoryRoute, hval]
              exact h
          | some nm =>
              simp only [createCategoryRoute, hval]
              cases hadm : checkIfAdmin st caller with
              | true =>
                  simp only [Bool.not_true, Bool.false_eq_true, if_false]
                  exact pinInv_storageSet_new st id nm caller now h
              | false =>
                  simp only [Bool.not_false, eq_self_iff_true, if_true]
                  exact h
  | deleteCategoryOp categoryid caller =>
      show PinInv (deleteCategoryRoute st categoryid caller).2
      cases hadm : checkIfAdmin st caller with
      | true =>
          simp only [deleteCategoryRoute, hadm, eq_self_iff_true, if_true]
          exact pinInv_eraseP st categoryid h
      | false =>
          simp only [deleteCategoryRoute, hadm, Bool.false_eq_true, if_false]
          exact h
  | createTopicOp categoryid title message id caller =>
      show PinInv (createTopicRoute st categoryid title message id caller now).2
      cases hr1 : getCategoryOrTopicOrPost st categoryid none none with
      | err m =>
          simp only [createTopicRoute, hr1]
          exact h
      | ok v =>
          cases v with
          | category category =>
              have hgc : storageGet st.categoriesStorage categoryid = some category :=
                resolve_category_ok hr1
              have hg2 : (match storageGet st.categoriesStorage categoryid with
                  | some category => !(category.topics.any (fun e => e.1 == id))
                  | none => true) = true := hg
              rw [hgc] at hg2
              have hfresh : (category.topics.any (fun e => e.1 == id)) = false := by
                simpa using hg2
              simp only [createTopicRoute, hr1]
              apply pinInv_updateCategory h
              intro c hgetc hc
              rw [hgetc] at hgc
              have hce : c = category := Option.some.inj hgc
              subst hce
              apply catInv_acknowledge
              exact catInv_addTopic hc hfresh rfl rfl
          | topicsMap ts => simp only [createTopicRoute, hr1]; exact h
          | topic t => simp only [createTopicRoute, hr1]; exact h
          | post p => simp only [createTopicRoute, hr1]; exact h
  | createPostOp categoryid topicid message id caller =>
      show PinInv (createPostRoute st categoryid topicid message id caller now).2
      cases hr1 : getCategoryOrTopicOrPost st categoryid none none with
      | err m =>
          cases hr2 : getCategoryOrTopicOrPost st categoryid (some topicid) none with
          | err m2 => simp only [createPostRoute, hr1, hr2]; exact h
          | ok v2 => cases v2 <;> simp only [createPostRoute, hr1, hr2] <;> exact h
      | ok v1 =>
          cases hr2 : getCategoryOrTopicOrPost st categoryid (some topicid) none with
          | err m2 => cases v1 <;> simp only [createPostRoute, hr1, hr2] <;> exact h
          | ok v2 =>
              cases v1 <;> cases v2 <;> simp only [createPostRoute, hr1, hr2] <;>
                first
                  | exact h
                  | · apply pinInv_updateCategory_all h
                      intro c hc
                      exact catInv_acknowledge (catInv_modifyTopic hc (fun t => ⟨rfl, rfl⟩))
  | likeTopicOp categoryid topicid caller =>
      show PinInv (likeTopicRoute st categoryid topicid caller).2
      cases hr : getCategoryOrTopicOrPost st categoryid (some topicid) none with
      | err m => simp only [likeTopicRoute, hr]; exact h
      | ok v =>
          cases v <;> simp only [likeTopicRoute, hr] <;>
            first
              | exact h
              | · rw [snd_ite_pair]
                  apply pinInv_updateCategory_all h
                  intro c hc
                  exact catInv_modifyTopic hc (fun t => ⟨rfl, rfl⟩)
  | unlikeTopicOp categoryid topicid caller =>
      show PinInv (unlikeTopicRoute st categoryid topicid caller).2
      cases hr : getCategoryOrTopicOrPost st categoryid (some topicid) none with
      | err m => simp only [unlikeTopicRoute, hr]; exact h
      | ok v =>
          cases v <;> simp only [unlikeTopicRoute, hr] <;>
            first
              | exact h
              | · rw [snd_ite_pair]
                  apply pinInv_updateCategory_all h
                  intro c hc
                  exact catInv_modifyTopic hc (fun t => ⟨rfl, rfl⟩)
  | likePostOp categoryid topicid postid caller =>
      show PinInv (likePostRoute st categoryid topicid postid caller).2
      cases hr : getCategoryOrTopicOrPost st categoryid (some topicid) (some postid) with
      | err m => simp only [likePostRoute, hr]; exact h
      | ok v =>
          cases v <;> simp only [likePostRoute, hr] <;>
            first
              | exact h
              | · rw [snd_ite_pair]
                  apply pinInv_updateCategory_all h
                  intro c hc
                  exact catInv_modifyTopic hc (fun t => ⟨rfl, rfl⟩)
  | unlikePostOp categoryid topicid postid caller =>
      show PinInv (unlikePostRoute st categoryid topicid postid caller).2
      cases hr : getCategoryOrTopicOrPost st categoryid (some topicid) (some postid) with
      | err m => simp only [unlikePostRoute, hr]; exact h
      | ok v =>
          cases v <;> simp only [unlikePostRoute, hr] <;>
            first
              | exact h
              | · rw [snd_ite_pair]
                  apply pinInv_updateCategory_all h
                  intro c hc
                  exact catInv_modifyTopic hc (fun t => ⟨rfl, rfl⟩)
  | editTopicOp categoryid topicid newMessage newTitle caller =>
      show PinInv (editTopicRoute st categoryid topicid newMessage newTitle caller now).2
      cases hr : getCategoryOrTopicOrPost st categoryid (some topicid) none with
      | err m => simp only [editTopicRoute, hr]; exact h
      | ok v =>
          cases v with
          | topic topic =>
              simp only [editTopicRoute, hr]
              cases hcl : topic.closed with
              | true =>
                  simp only [Bool.not_true, Bool.false_eq_true, if_false]
                  exact h
              | false =>
                  simp only [Bool.not_false, eq_self_iff_true, if_true]
                  cases hdel : topic.messageDeleted with
                  | true =>
                      simp only [Bool.not_true, Bool.false_eq_true, if_false]
                      exact h
                  | false =>
                      simp only [Bool.not_false, eq_self_iff_true, if_true]
                      apply pinInv_updateCategory_all h
                      intro c hc
                      apply catInv_modifyTopic hc
                      intro t
                      cases newMessage <;> cases newTitle <;> exact ⟨rfl, rfl⟩
          | category c => simp only [editTopicRoute, hr]; exact h
          | topicsMap ts => simp only [editTopicRoute, hr]; exact h
          | post p => simp only [editTopicRoute, hr]; exact h
  | editPostOp categoryid topicid postid newMessage caller =>
      show PinInv (editPostRoute st categoryid topicid postid newMessage caller now).2
      cases newMessage with
      | none => simp only [editPostRoute]; exact h
      | some s =>
          cases hr1 : getCategoryOrTopicOrPost st categoryid (some topicid) none with
          | err m =>
              cases hr2 : getCategoryOrTopicOrPost st categoryid (some topicid) (some postid) with
              | err m2 => simp only [editPostRoute, hr1, hr2]; exact h
              | ok v2 => cases v2 <;> simp only [editPostRoute, hr1, hr2] <;> exact h
          | ok v1 =>
              cases hr2 : getCategoryOrTopicOrPost st categoryid (some topicid) (some postid) with
              | err m2 => cases v1 <;> simp only [editPostRoute, hr1, hr2] <;> exact h
              | ok v2 =>
                  cases v1 with
                  | topic topic =>
                      cases v2 <;> simp only [editPostRoute, hr1, hr2] <;>
                        first
                          | exact h
                          | · cases hcl : topic.closed with
                              | true =>
                                  simp only [Bool.not_true, Bool.false_eq_true, if_false]
                                  exact h
                              | false =>
                                  simp only [Bool.not_false, eq_self_iff_true, if_true]
                                  cases hdel : topic.messageDeleted with
                                  | true =>
                                      simp only [Bool.not_true, Bool.false_eq_true, if_false]
                                      exact h
                                  | false =>
                                      simp only [Bool.not_false, eq_self_iff_true, if_true]
                                      apply pinInv_updateCategory_all h
                                      intro c hc
                                      apply catInv_modifyTopic hc
                                      intro t
                                      cases t.posts.get? postid <;> exact ⟨rfl, rfl⟩
                  | category c2 =>
                      cases v2 <;> simp only [editPostRoute, hr1, hr2] <;> exact h
                  | topicsMap ts =>
                      cases v2 <;> simp only [editPostRoute, hr1, hr2] <;> exact h
                  | post p2 =>
                      cases v2 <;> simp only [editPostRoute, hr1, hr2] <;> exact h
  | pinTopicOp categoryid topicid shouldPin caller =>
      show PinInv (pinTopicRoute st categoryid topicid shouldPin caller).2
      cases hstaff : (checkIfModerator st caller || checkIfAdmin st caller) with
      | false =>
          simp only [pinTopicRoute, hstaff, Bool.false_eq_true, if_false]
          exact h
      | true =>
          simp only [pinTopicRoute, hstaff, eq_self_iff_true, if_true]
          cases hr1 : getCategoryOrTopicOrPost st categoryid none none with
          | err m =>
              cases hr2 : getCategoryOrTopicOrPost st categoryid (some topicid) none with
              | err m2 => simp only [hr1, hr2]; exact h
              | ok v2 => cases v2 <;> simp only [hr1, hr2] <;> exact h
          | ok v1 =>
              cases hr2 : getCategoryOrTopicOrPost st categoryid (some topicid) none with
              | err m2 => cases v1 <;> simp only [hr1, hr2] <;> exact h
              | ok v2 =>
                  cases v1 with
                  | category category =>
                      cases v2 with
                      | topic topic =>
                          simp only [hr1, hr2]
                          have hgc : storageGet st.categoriesStorage categoryid
                              = some category := resolve_category_ok hr1
                          obtain ⟨c2, hgc2, htop2⟩ := resolve_topic_ok hr2
                          rw [hgc] at hgc2
                          have hce : category = c2 := Option.some.inj hgc2
                          subst hce
                          apply pinInv_updateCategory h
                          intro c hgetc hc
                          rw [hgetc] at hgc
                          have hce2 : c = category := Option.some.inj hgc
                          subst hce2
                          exact catInv_pin hc htop2 shouldPin
                      | category c3 => simp only [hr1, hr2]; exact h
                      | topicsMap ts => simp only [hr1, hr2]; exact h
                      | post p => simp only [hr1, hr2]; exact h
                  | topicsMap ts =>
                      cases v2 <;> simp only [hr1, hr2] <;> exact h
                  | topic t =>
                      cases v2 <;> simp only [hr1, hr2] <;> exact h
                  | post p =>
                      cases v2 <;> simp only [hr1, hr2] <;> exact h
  | closeTopicOp categoryid topicid shouldClose caller =>
      show PinInv (closeTopicRoute st categoryid topicid shouldClose caller).2
      cases hstaff : (checkIfModerator st caller || checkIfAdmin st caller) with
      | false =>
          simp only [closeTopicRoute, hstaff, Bool.false_eq_true, if_false]
          exact h
      | true =>
          simp only [closeTopicRoute, hstaff, eq_self_iff_true, if_true]
          cases hr : getCategoryOrTopicOrPost st categoryid (some topicid) none with
          | err m => simp only [hr]; exact h
          | ok v =>
              cases v <;> simp only [hr] <;>
                first
                  | exact h
                  | · apply pinInv_updateCategory_all h
                      intro c hc
                      exact catInv_modifyTopic hc (fun t => ⟨rfl, rfl⟩)
  | deletePostOp categoryid topicid postid caller =>
      show PinInv (softDeletePostRoute st categoryid topicid postid caller).2
      cases hr1 : getCategoryOrTopicOrPost st categoryid (some topicid) none with
      | err m =>
          cases hr2 : getCategoryOrTopicOrPost st categoryid (some topicid) (some postid) with
          | err m2 => simp only [softDeletePostRoute, hr1, hr2]; exact h
          | ok v2 => cases v2 <;> simp only [softDeletePostRoute, hr1, hr2] <;> exact h
      | ok v1 =>
          cases hr2 : getCategoryOrTopicOrPost st categoryid (some topicid) (some postid) with
          | err m2 => cases v1 <;> simp only [softDeletePostRoute, hr1, hr2] <;> exact h
          | ok v2 =>
              cases v1 <;> cases v2 <;> simp only [softDeletePostRoute, hr1, hr2] <;>
                first
                  | exact h
                  | · rename_i post
                      cases hauth : checkIfAuthorized st post.createdBy caller with
                      | true =>
                          simp only [eq_self_iff_true, if_true]
                          apply pinInv_updateCategory_all h
                          intro c hc
                          exact catInv_modifyTopic hc (fun t => ⟨rfl, rfl⟩)
                      | false =>
                          simp only [Bool.false_eq_true, if_false]
                          exact h
  | registryOp op =>
      exact pinInv_of_categories_eq (applyRegOp_categoriesStorage st op) h

/-- C5 witness: with pinnedTopics = [p1, p2] (no duplicates) and
mostRecentTopics = [r1, p1], the listing starts with the pinned block. -/
theorem C5_listTopics_witness :
    (["p1", "p2"] : List String).Nodup ∧
    (sortTopicsByActivityAndPin (Category.mk "c" "n" [] ["p1", "p2"] ["r1", "p1"] 0 "a")).take 2
      = ["p1", "p2"] :=
  ⟨by decide,
   by simpa using
     (C5_listTopics (Category.mk "c" "n" [] ["p1", "p2"] ["r1", "p1"] 0 "a")).2.2.2 (by decide)⟩

/-- C1: the topic-edit and post-edit handlers never compare the caller with
the content creator. The README of the repository states, for both PUT
handlers, that editing should only work if they created this topic or
post; the code checks only the closed and deleted flags. Concretely: eve,
who is not the creator alice (and holds no role), edits alice topic and
alice post with status 200, and the stored bodies change. -/
theorem C1_edit_lacks_creator_check :
    "eve" ≠ topicEx1.createdBy ∧
    (editTopicRoute stEx1 "c1" "t1" (some "hacked") none "eve" 5).1
      = ⟨200, "Topic updated"⟩ ∧
    ((storageGet (editTopicRoute stEx1 "c1" "t1" (some "hacked") none "eve" 5).2.categoriesStorage
        "c1").bind (fun c => topicsGet c.topics "t1")).map (fun t => t.message)
      = some "hacked" ∧
    "eve" ≠ postEx1.createdBy ∧
    (editPostRoute stEx1 "c1" "t1" 0 (some "hacked post") "eve" 5).1
      = ⟨200, "Post updated"⟩ ∧
    (((storageGet (editPostRoute stEx1 "c1" "t1" 0 (some "hacked post") "eve"
          5).2.categoriesStorage "c1").bind
        (fun c => topicsGet c.topics "t1")).bind (fun t => t.posts.get? 0)).map
        (fun p => p.message)
      = some "hacked post" := by
  decide

lemma createTopicRoute_ignores_banned (st : AppState) (b : List String)
    (categoryid title message id caller : String) (now : Nat) :
    (createTopicRoute { st with bannedAddressesStorage := b }
        categoryid title message id caller now).1
      = (createTopicRoute st categoryid title message id caller now).1 ∧
    (createTopicRoute { st with bannedAddressesStorage := b }
        categoryid title message id caller now).2.categoriesStorage
      = (createTopicRoute st categoryid title message id caller now).2.categoriesStorage := by
  cases hc : getCategoryOrTopicOrPost st categoryid none none with
  | err m =>
      have hc' : getCategoryOrTopicOrPost { st with bannedAddressesStorage := b }
          categoryid none none = .err m := hc
      constructor <;> simp [createTopicRoute, hc, hc']
  | ok v =>
      have hc' : getCategoryOrTopicOrPost { st with bannedAddressesStorage := b }
          categoryid none none = .ok v := hc
      cases v <;> constructor <;> simp [createTopicRoute, hc, hc', updateCategory]

lemma createPostRoute_ignores_banned (st : AppState) (b : List String)
    (categoryid topicid message id caller : String) (now : Nat) :
    (createPostRoute { st with bannedAddressesStorage := b }
        categoryid topicid message id caller now).1
      = (createPostRoute st categoryid topicid message id caller now).1 ∧
    (createPostRoute { st with bannedAddressesStorage := b }
        categoryid topicid message id caller now).2.categoriesStorage
      = (createPostRoute st categoryid topicid message id caller now).2.categoriesStorage := by
  cases hc : getCategoryOrTopicOrPost st categoryid none none with
  | err m =>
      have hc' : getCategoryOrTopicOrPost { st with bannedAddressesStorage := b }
          categoryid none none = .err m := hc
      cases ht : getCategoryOrTopicOrPost st categoryid (some topicid) none with
      | err m2 =>
          have ht' : getCategoryOrTopicOrPost { st with bannedAddressesStorage := b }
              categoryid (some topicid) none = .err m2 := ht
          constructor <;> simp [createPostRoute, hc, hc', ht, ht']
      | ok v2 =>
          have ht' : getCategoryOrTopicOrPost { st with bannedAddressesStorage := b }
              categoryid (some topicid) none = .ok v2 := ht
          cases v2 <;> constructor <;> simp [createPostRoute, hc, hc', ht, ht']
  | ok v =>
      have hc' : getCategoryOrTopicOrPost { st with bannedAddressesStorage := b }
          categoryid none none = .ok v := hc
      cases ht : getCategoryOrTopicOrPost st categoryid (some topicid) none with
      | err m2 =>
          have ht' : getCategoryOrTopicOrPost { st with bannedAddressesStorage := b }
              categoryid (some topicid) none = .err m2 := ht
          cases v <;> constructor <;> simp [createPostRoute, hc, hc', ht, ht']
      | ok v2 =>
          have ht' : getCategoryOrTopicOrPost { st with bannedAddressesStorage := b }
              categoryid (some topicid) none = .ok v2 := ht
          cases v <;> cases v2 <;> constructor <;>
            simp [createPostRoute, hc, hc', ht, ht', updateCategory]

lemma likeTopicRoute_ignores_banned (st : AppState) (b : List String)
    (categoryid topicid caller : String) :
    (likeTopicRoute { st with bannedAddressesStorage := b } categoryid topicid caller).1
      = (likeTopicRoute st categoryid topicid caller).1 ∧
    (likeTopicRoute { st with bannedAddressesStorage := b }
        categoryid topicid caller).2.categoriesStorage
      = (likeTopicRoute st categoryid topicid caller).2.categoriesStorage := by
  cases hc : getCategoryOrTopicOrPost st categoryid (some topicid) none with
  | err m =>
      have hc' : getCategoryOrTopicOrPost { st with bannedAddressesStorage := b }
          categoryid (some topicid) none = .err m := hc
      constructor <;> simp [likeTopicRoute, hc, hc']
  | ok v =>
      have hc' : getCategoryOrTopicOrPost { st with bannedAddressesStorage := b }
          categoryid (some topicid) none = .ok v := hc
      cases v <;> constructor <;>
        simp [likeTopicRoute, hc, hc', updateCategory] <;> split_ifs <;> rfl

lemma unlikeTopicRoute_ignores_banned (st : AppState) (b : List String)
    (categoryid topicid caller : String) :
    (unlikeTopicRoute { st with bannedAddressesStorage := b } categoryid topicid caller).1
      = (unlikeTopicRoute st categoryid topicid caller).1 ∧
    (unlikeTopicRoute { st with bannedAddressesStorage := b }
        categoryid topicid caller).2.categoriesStorage
      = (unlikeTopicRoute st categoryid topicid caller).2.categoriesStorage := by
  cases hc : getCategoryOrTopicOrPost st categoryid (some topicid) none with
  | err m =>
      have hc' : getCategoryOrTopicOrPost { st with bannedAddressesStorage := b }
          categoryid (some topicid) none = .err m := hc
      constructor <;> simp [unlikeTopicRoute, hc, hc']
  | ok v =>
      have hc' : getCategoryOrTopicOrPost { st with bannedAddressesStorage := b }
          categoryid (some topicid) none = .ok v := hc
      cases v <;> constructor <;>
        simp [unlikeTopicRoute, hc, hc', updateCategory] <;> split_ifs <;> rfl

lemma likePostRoute_ignores_banned (st : AppState) (b : List String)
    (categoryid topicid : String) (pid : Nat) (caller : String) :
    (likePostRoute { st with bannedAddressesStorage := b } categoryid topicid pid caller).1
      = (likePostRoute st categoryid topicid pid caller).1 ∧
    (likePostRoute { st with bannedAddressesStorage := b }
        categoryid topicid pid caller).2.categoriesStorage
      = (likePostRoute st categoryid topicid pid caller).2.categoriesStorage := by
  cases hc : getCategoryOrTopicOrPost st categoryid (some topicid) (some pid) with
  | err m =>
      have hc' : getCategoryOrTopicOrPost { st with bannedAddressesStorage := b }
          categoryid (some topicid) (some pid) = .err m := hc
      constructor <;> simp [likePostRoute, hc, hc']
  | ok v =>
      have hc' : getCategoryOrTopicOrPost { st with bannedAddressesStorage := b }
          categoryid (some topicid) (some pid) = .ok v := hc
      cases v <;> constructor <;>
        simp [likePostRoute, hc, hc', updateCategory] <;> split_ifs <;> rfl

lemma unlikePostRoute_ignores_banned (st : AppState) (b : List String)
    (categoryid topicid : String) (pid : Nat) (caller : String) :
    (unlikePostRoute { st with bannedAddressesStorage := b } categoryid topicid pid caller).1
      = (unlikePostRoute st categoryid topicid pid caller).1 ∧
    (unlikePostRoute { st with bannedAddressesStorage := b }
        categoryid topicid pid caller).2.categoriesStorage
      = (unlikePostRoute st categoryid topicid pid caller).2.categoriesStorage := by
  cases hc : getCategoryOrTopicOrPost st categoryid (some topicid) (some pid) with
  | err m =>
      have hc' : getCategoryOrTopicOrPost { st with bannedAddressesStorage := b }
          categoryid (some topicid) (some pid) = .err m := hc
      constructor <;> simp [unlikePostRoute, hc, hc']
  | ok v =>
      have hc' : getCategoryOrTopicOrPost { st with bannedAddressesStorage := b }
          categoryid (some topicid) (some pid) = .ok v := hc
      cases v <;> constructor <;>
        simp [unlikePostRoute, hc, hc', updateCategory] <;> split_ifs <;> rfl

lemma likeOrUnlike_true_spec (likes : List String) (caller : String) :
    likeOrUnlikeMessage likes caller true =
      if caller ∈ likes then (false, likes) else (true, likes ++ [caller]) := by
  by_cases h : caller ∈ likes
  · rw [if_pos h]
    obtain ⟨i, hi⟩ : ∃ i, likes.findIdx? (fun element => element == caller) = some i := by
      cases hfi : likes.findIdx? (fun element => element == caller) with
      | some i => exact ⟨i, rfl⟩
      | none => exact absurd (List.findIdx?_eq_none_iff.mp hfi caller h) (by simp)
    simp [likeOrUnlikeMessage, hi]
  · rw [if_neg h]
    simp [likeOrUnlikeMessage, findIdx_none_of_not_mem h]

lemma likeOrUnlike_false_fst (likes : List String) (caller : String) :
    (likeOrUnlikeMessage likes caller false).1 = true ↔ caller ∈ likes := by
  by_cases h : caller ∈ likes
  · obtain ⟨i, hi⟩ : ∃ i, likes.findIdx? (fun element => element == caller) = some i := by
      cases hfi : likes.findIdx? (fun element => element == caller) with
      | some i => exact ⟨i, rfl⟩
      | none => exact absurd (List.findIdx?_eq_none_iff.mp hfi caller h) (by simp)
    simp [likeOrUnlikeMessage, hi, h]
  · simp [likeOrUnlikeMessage, findIdx_none_of_not_mem h, h]

/-- C2 counterexample: mallory is in the banned table of stEx2, yet topic
creation, post creation, like and unlike by mallory all succeed: none of
these handlers consults checkIfBanned. -/
theorem C2_banned_caller_succeeds :
    checkIfBanned stEx2 "mallory" = true ∧
    (createTopicRoute stEx2 "c1" "Spam" "spam body" "t9" "mallory" 7).1.status = 201 ∧
    (createPostRoute stEx2 "c1" "t1" "spam post" "p9" "mallory" 7).1.status = 201 ∧
    (likeTopicRoute stEx2 "c1" "t1" "mallory").1 = ⟨200, "Topic liked"⟩ ∧
    (unlikeTopicRoute (likeTopicRoute stEx2 "c1" "t1" "mallory").2 "c1" "t1" "mallory").1
      = ⟨200, "Like removed from topic"⟩ := by
  decide

/-- C2 amended: topic creation, post creation and like/unlike never consult
the Banned set: replacing the banned table changes neither their response
nor their effect on the content store, topic creation succeeds for every
caller exactly when the category exists, and like/unlike outcomes are
determined solely by the target existing and the like-set toggle state. -/
theorem C2_content_ops_ignore_banned (st : AppState) (b : List String)
    (categoryid topicid title message id caller : String) (pid now : Nat) :
    ((createTopicRoute { st with bannedAddressesStorage := b }
        categoryid title message id caller now).1
      = (createTopicRoute st categoryid title message id caller now).1 ∧
     (createTopicRoute { st with bannedAddressesStorage := b }
        categoryid title message id caller now).2.categoriesStorage
      = (createTopicRoute st categoryid title message id caller now).2.categoriesStorage) ∧
    ((createPostRoute { st with bannedAddressesStorage := b }
        categoryid topicid message id caller now).1
      = (createPostRoute st categoryid topicid message id caller now).1 ∧
     (createPostRoute { st with bannedAddressesStorage := b }
        categoryid topicid message id caller now).2.categoriesStorage
      = (createPostRoute st categoryid topicid message id caller now).2.categoriesStorage) ∧
    ((likeTopicRoute { st with bannedAddressesStorage := b } categoryid topicid caller).1
      = (likeTopicRoute st categoryid topicid caller).1 ∧
     (likeTopicRoute { st with bannedAddressesStorage := b }
        categoryid topicid caller).2.categoriesStorage
      = (likeTopicRoute st categoryid topicid caller).2.categoriesStorage) ∧
    ((unlikeTopicRoute { st with bannedAddressesStorage := b } categoryid topicid caller).1
      = (unlikeTopicRoute st categoryid topicid caller).1 ∧
     (unlikeTopicRoute { st with bannedAddressesStorage := b }
        categoryid topicid caller).2.categoriesStorage
      = (unlikeTopicRoute st categoryid topicid caller).2.categoriesStorage) ∧
    ((likePostRoute { st with bannedAddressesStorage := b } categoryid topicid pid caller).1
      = (likePostRoute st categoryid topicid pid caller).1 ∧
     (likePostRoute { st with bannedAddressesStorage := b }
        categoryid topicid pid caller).2.categoriesStorage
      = (likePostRoute st categoryid topicid pid caller).2.categoriesStorage) ∧
    ((unlikePostRoute { st with bannedAddressesStorage := b } categoryid topicid pid caller).1
      = (unlikePostRoute st categoryid topicid pid caller).1 ∧
     (unlikePostRoute { st with bannedAddressesStorage := b }
        categoryid topicid pid caller).2.categoriesStorage
      = (unlikePostRoute st categoryid topicid pid caller).2.categoriesStorage) ∧
    ((createTopicRoute st categoryid title message id caller now).1.status = 201 ↔
      storageGet st.categoriesStorage categoryid ≠ none) ∧
    (∀ topic, getCategoryOrTopicOrPost st categoryid (some topicid) none = .ok (.topic topic) →
      ((likeTopicRoute st categoryid topicid caller).1
        = if caller ∈ topic.likes then ⟨400, "Topic already liked"⟩
          else ⟨200, "Topic liked"⟩) ∧
      ((unlikeTopicRoute st categoryid topicid caller).1
        = if caller ∈ topic.likes then ⟨200, "Like removed from topic"⟩
          else ⟨400, "Topic was not liked"⟩)) := by
  refine ⟨createTopicRoute_ignores_banned st b categoryid title message id caller now,
          createPostRoute_ignores_banned st b categoryid topicid message id caller now,
          likeTopicRoute_ignores_banned st b categoryid topicid caller,
          unlikeTopicRoute_ignores_banned st b categoryid topicid caller,
          likePostRoute_ignores_banned st b categoryid topicid pid caller,
          unlikePostRoute_ignores_banned st b categoryid topicid pid caller,
          ?_, ?_⟩
  · cases hg : storageGet st.categoriesStorage categoryid with
    | none =>
        have hres : getCategoryOrTopicOrPost st categoryid none none
            = .err ("Category with id=" ++ categoryid ++ " not found") := by
          simp [getCategoryOrTopicOrPost, hg]
        simp [createTopicRoute, hres, hg]
    | some c =>
        have hres : getCategoryOrTopicOrPost st categoryid none none
            = .ok (.category c) := by
          simp [getCategoryOrTopicOrPost, hg]
        simp [createTopicRoute, hres, hg]
  · intro topic htopic
    constructor
    · by_cases hm : caller ∈ topic.likes <;>
        simp [likeTopicRoute, htopic, likeOrUnlike_true_spec, hm]
    · by_cases hm : caller ∈ topic.likes
      · have h1 : (likeOrUnlikeMessage topic.likes caller false).1 = true :=
          (likeOrUnlike_false_fst topic.likes caller).mpr hm
        simp [unlikeTopicRoute, htopic, h1, hm]
      · have h1 : (likeOrUnlikeMessage topic.likes caller false).1 = false := by
          cases hb : (likeOrUnlikeMessage topic.likes caller false).1 with
          | false => rfl
          | true => exact absurd ((likeOrUnlike_false_fst topic.likes caller).mp hb) hm
        simp [unlikeTopicRoute, htopic, h1, hm]

/-- C2 witness: the amended characterization applied at the concrete state
stEx1, where topic t1 exists with an empty like set. -/
theorem C2_content_ops_ignore_banned_witness :
    (likeTopicRoute stEx1 "c1" "t1" "mallory").1 = ⟨200, "Topic liked"⟩ ∧
    (unlikeTopicRoute stEx1 "c1" "t1" "mallory").1 = ⟨400, "Topic was not liked"⟩ := by
  have h := (C2_content_ops_ignore_banned stEx1 [] "c1" "t1" "T" "M" "id9" "mallory"
      0 0).2.2.2.2.2.2.2 topicEx1 (by decide)
  constructor
  · rw [h.1]; decide
  · rw [h.2]; decide

/-- C9: getCategoryOrTopicOrPost reports the first missing level, in the
order category not found, then topic not found, then post not found (the
post addressed by zero-based position in topic.posts); and at a valid
index the stored post is returned unconditionally, in particular also when
it is soft deleted. -/
theorem C9_resolve_order (st : AppState) (categoryid tid : String) (pid : Nat) :
    (storageGet st.categoriesStorage categoryid = none →
      ∀ topicid postid, getCategoryOrTopicOrPost st categoryid topicid postid
        = .err ("Category with id=" ++ categoryid ++ " not found")) ∧
    (∀ category, storageGet st.categoriesStorage categoryid = some category →
      tid ≠ "topics" →
      topicsGet category.topics tid = none →
      ∀ postid, getCategoryOrTopicOrPost st categoryid (some tid) postid
        = .err ("Topic with id=" ++ tid ++ " not found")) ∧
    (∀ category topic, storageGet st.categoriesStorage categoryid = some category →
      tid ≠ "topics" →
      topicsGet category.topics tid = some topic →
      topic.posts.length ≤ pid →
      getCategoryOrTopicOrPost st categoryid (some tid) (some pid)
        = .err ("Post with id=" ++ toString pid ++ " not found")) ∧
    (∀ category topic, storageGet st.categoriesStorage categoryid = some category →
      tid ≠ "topics" →
      topicsGet category.topics tid = some topic →
      ∀ hlt : pid < topic.posts.length,
        getCategoryOrTopicOrPost st categoryid (some tid) (some pid)
          = .ok (.post (topic.posts.get ⟨pid, hlt⟩))) := by
  refine ⟨?_, ?_, ?_, ?_⟩
  · intro hg topicid postid
    simp [getCategoryOrTopicOrPost, hg]
  · intro category hg htid htop postid
    simp [getCategoryOrTopicOrPost, hg, htop, beq_eq_false_iff_ne.mpr htid]
  · intro category topic hg htid htop hlen
    have hnone : topic.posts[pid]? = none := List.getElem?_eq_none hlen
    simp [getCategoryOrTopicOrPost, hg, htop, beq_eq_false_iff_ne.mpr htid, hnone]
  · intro category topic hg htid htop hlt
    have hsome : topic.posts[pid]? = some (topic.posts.get ⟨pid, hlt⟩) := by
      rw [List.getElem?_eq_getElem hlt, List.get_eq_getElem]
    simp [getCategoryOrTopicOrPost, hg, htop, beq_eq_false_iff_ne.mpr htid, hsome]

/-- C9 witness: in stEx9 the post at index 0 of topic t is soft deleted and
is still resolved successfully (with blank content), not reported as
missing. -/
theorem C9_resolve_order_witness :
    getCategoryOrTopicOrPost stEx9 "c" (some "t") (some 0) = .ok (.post postEx9) ∧
    postEx9.messageDeleted = true := by
  have h := (C9_resolve_order stEx9 "c" "t" 0).2.2.2 catEx9 topicEx9 rfl
    (by decide) rfl (by decide)
  exact ⟨by simpa using h, rfl⟩

lemma find_map_ite {α : Type} (l : List (String × α)) (k : String) (f : α → α) :
    ((l.map (fun e => if e.1 == k then (e.1, f e.2) else e)).find?
        (fun e => e.1 == k)).map (fun e => e.2)
      = ((l.find? (fun e => e.1 == k)).map (fun e => e.2)).map f := by
  induction l with
  | nil => rfl
  | cons e rest ih =>
      by_cases he : e.1 = k
      · simp [List.find?_cons, he]
      · have hbe : (e.1 == k) = false := beq_eq_false_iff_ne.mpr he
        have hnot : ¬((e.1 == k) = true) := by simp [hbe]
        rw [List.map_cons]
        have hite : (if (e.1 == k) = true then (e.1, f e.2) else e) = e := if_neg hnot
        rw [hite]
        have h1 : List.find? (fun x => x.1 == k)
            (e :: rest.map (fun x => if (x.1 == k) = true then (x.1, f x.2) else x))
            = List.find? (fun x => x.1 == k)
              (rest.map (fun x => if (x.1 == k) = true then (x.1, f x.2) else x)) :=
          List.find?_cons_of_neg _ hnot
        have h2 : List.find? (fun x => x.1 == k) (e :: rest)
            = List.find? (fun x => x.1 == k) rest :=
          List.find?_cons_of_neg _ hnot
        rw [h1, h2]
        exact ih

lemma storageGet_updateCategory (st : AppState) (k : String) (f : Category → Category) :
    storageGet (updateCategory st k f).categoriesStorage k
      = (storageGet st.categoriesStorage k).map f := by
  unfold storageGet updateCategory
  exact find_map_ite st.categoriesStorage k f

lemma topicsGet_modifyTopic (c : Category) (k : String) (f : Topic → Topic) :
    topicsGet (modifyTopic c k f).topics k = (topicsGet c.topics k).map f := by
  unfold topicsGet modifyTopic
  exact find_map_ite c.topics k f

lemma updateCategory_comp (st : AppState) (k : String) (f g : Category → Category) :
    updateCategory (updateCategory st k f) k g
      = updateCategory st k (fun c => g (f c)) := by
  unfold updateCategory
  congr 1
  rw [List.map_map]
  apply List.map_congr_left
  intro e _
  by_cases hk : (e.1 == k) = true
  · simp [Function.comp, hk]
  · simp [Function.comp, hk]

lemma updateCategory_congr (st : AppState) (k : String) {f g : Category → Category}
    (h : ∀ c, f c = g c) : updateCategory st k f = updateCategory st k g := by
  unfold updateCategory
  congr 1
  apply List.map_congr_left
  intro e _
  by_cases hk : (e.1 == k) = true <;> simp [hk, h]

lemma modifyTopic_comp (c : Category) (k : String) (f g : Topic → Topic) :
    modifyTopic (modifyTopic c k f) k g = modifyTopic c k (fun t => g (f t)) := by
  unfold modifyTopic
  congr 1
  rw [List.map_map]
  apply List.map_congr_left
  intro e _
  by_cases hk : (e.1 == k) = true
  · simp [Function.comp, hk]
  · simp [Function.comp, hk]

lemma modifyTopic_congr (c : Category) (k : String) {f g : Topic → Topic}
    (h : ∀ t, f t = g t) : modifyTopic c k f = modifyTopic c k g := by
  unfold modifyTopic
  congr 1
  apply List.map_congr_left
  intro e _
  by_cases hk : (e.1 == k) = true <;> simp [hk, h]

/-- C8: soft deletion of the post at a valid index by an authorized caller
answers 200, replaces exactly that slot of the topic with blankPost of the
old post (empty body, cleared history, deleted flag), keeps the sequence
length and every other slot unchanged, and running the same delete again
answers 200 and leaves the state exactly as it was (an idempotent no-op
that does not resurrect history). -/
theorem C8_soft_delete (st : AppState) (categoryid topicid : String) (pid : Nat)
    (caller : String) (category : Category) (topic : Topic)
    (htids : topicid ≠ "topics")
    (hcat : storageGet st.categoriesStorage categoryid = some category)
    (htop : topicsGet category.topics topicid = some topic)
    (hpid : pid < topic.posts.length)
    (hauth : checkIfAuthorized st (topic.posts.get ⟨pid, hpid⟩).createdBy caller = true) :
    (softDeletePostRoute st categoryid topicid pid caller).1 = ⟨200, "Post deleted"⟩ ∧
    storageGet (softDeletePostRoute st categoryid topicid pid caller).2.categoriesStorage
        categoryid
      = some (modifyTopic category topicid (fun t =>
          { t with posts := t.posts.set pid (blankPost (topic.posts.get ⟨pid, hpid⟩)) })) ∧
    topicsGet (modifyTopic category topicid (fun t =>
          { t with posts := t.posts.set pid (blankPost (topic.posts.get ⟨pid, hpid⟩)) })).topics
        topicid
      = some { topic with
          posts := topic.posts.set pid (blankPost (topic.posts.get ⟨pid, hpid⟩)) } ∧
    (topic.posts.set pid (blankPost (topic.posts.get ⟨pid, hpid⟩))).length
      = topic.posts.length ∧
    (∀ j, j ≠ pid →
      (topic.posts.set pid (blankPost (topic.posts.get ⟨pid, hpid⟩)))[j]? = topic.posts[j]?) ∧
    (topic.posts.set pid (blankPost (topic.posts.get ⟨pid, hpid⟩)))[pid]?
      = some (blankPost (topic.posts.get ⟨pid, hpid⟩)) ∧
    (blankPost (topic.posts.get ⟨pid, hpid⟩)).message = "" ∧
    (blankPost (topic.posts.get ⟨pid, hpid⟩)).messageEditHistory = [] ∧
    (blankPost (topic.posts.get ⟨pid, hpid⟩)).messageDeleted = true ∧
    softDeletePostRoute (softDeletePostRoute st categoryid topicid pid caller).2
        categoryid topicid pid caller
      = (⟨200, "Post deleted"⟩, (softDeletePostRoute st categoryid topicid pid caller).2) := by
  have hbeq := beq_eq_false_iff_ne.mpr htids
  have hres1 : getCategoryOrTopicOrPost st categoryid (some topicid) none
      = .ok (.topic topic) := by
    simp [getCategoryOrTopicOrPost, hcat, htop, hbeq]
  have hgetP : topic.posts[pid]? = some (topic.posts.get ⟨pid, hpid⟩) := by
    rw [List.getElem?_eq_getElem hpid, List.get_eq_getElem]
  have hres2 : getCategoryOrTopicOrPost st categoryid (some topicid) (some pid)
      = .ok (.post (topic.posts.get ⟨pid, hpid⟩)) := by
    simp [getCategoryOrTopicOrPost, hcat, htop, hbeq, hgetP]
  have hroute : softDeletePostRoute st categoryid topicid pid caller
      = (⟨200, "Post deleted"⟩, updateCategory st categoryid (fun c =>
          modifyTopic c topicid (fun t =>
            { t with posts :=
                t.posts.set pid (blankPost (topic.posts.get ⟨pid, hpid⟩)) }))) := by
    simp only [softDeletePostRoute, hres1, hres2]
    rw [if_pos hauth]
    rfl
  refine ⟨by rw [hroute], ?_, ?_, List.length_set _ _ _, ?_, ?_, rfl, rfl, rfl, ?_⟩
  · rw [hroute, storageGet_updateCategory, hcat]
    rfl
  · rw [topicsGet_modifyTopic, htop]
    rfl
  · intro j hj
    exact List.getElem?_set_ne (Ne.symm hj)
  · exact List.getElem?_set_self hpid
  · rw [hroute]
    set g : Topic → Topic := fun t =>
      { t with posts := t.posts.set pid (blankPost (topic.posts.get ⟨pid, hpid⟩)) } with hgdef
    set st2 := updateCategory st categoryid (fun c => modifyTopic c topicid g) with hst2
    have hcat2 : storageGet st2.categoriesStorage categoryid
        = some (modifyTopic category topicid g) := by
      rw [hst2, storageGet_updateCategory, hcat]
      rfl
    have htop2 : topicsGet (modifyTopic category topicid g).topics topicid
        = some (g topic) := by
      rw [topicsGet_modifyTopic, htop]
      rfl
    have hget2 : (topic.posts.set pid (blankPost topic.posts[pid]))[pid]?
        = some (blankPost topic.posts[pid]) :=
      List.getElem?_set_self hpid
    have hres1b : getCategoryOrTopicOrPost st2 categoryid (some topicid) none
        = .ok (.topic (g topic)) := by
      simp [getCategoryOrTopicOrPost, hcat2, htop2, hbeq]
    have hres2b : getCategoryOrTopicOrPost st2 categoryid (some topicid) (some pid)
        = .ok (.post (blankPost (topic.posts.get ⟨pid, hpid⟩))) := by
      simp [getCategoryOrTopicOrPost, hcat2, htop2, hbeq, hget2]
    have hauth2 : checkIfAuthorized st2
        (blankPost (topic.posts.get ⟨pid, hpid⟩)).createdBy caller = true := by
      rw [hst2]
      exact hauth
    simp only [softDeletePostRoute, hres1b, hres2b]
    rw [if_pos hauth2]
    rw [Prod.mk.injEq]
    refine ⟨rfl, ?_⟩
    rw [hst2, updateCategory_comp]
    apply updateCategory_congr
    intro c
    rw [modifyTopic_comp]
    apply modifyTopic_congr
    intro t
    rw [hgdef]
    rw [List.set_set]
    rfl

/-- C8 witness: alice soft deletes her own post p1 in stEx1 twice; both
calls answer 200 and the second changes nothing. -/
theorem C8_soft_delete_witness :
    (softDeletePostRoute stEx1 "c1" "t1" 0 "alice").1 = ⟨200, "Post deleted"⟩ ∧
    softDeletePostRoute (softDeletePostRoute stEx1 "c1" "t1" 0 "alice").2 "c1" "t1" 0 "alice"
      = (⟨200, "Post deleted"⟩, (softDeletePostRoute stEx1 "c1" "t1" 0 "alice").2) := by
  have h := C8_soft_delete stEx1 "c1" "t1" 0 "alice" catEx1 topicEx1
    (by decide) rfl rfl (by decide) (by decide)
  exact ⟨h.1, h.2.2.2.2.2.2.2.2.2⟩

/-- C7 witness: two edits of a message created with body hi produce the
history snapshots [hi, a] and final body b. -/
theorem C7_edit_history_witness :
    (applyEdits (Message.new "m" "hi" "alice" 0) [(1, "a"), (2, "b")]).messageEditHistory.length
      = 2 ∧
    (applyEdits (Message.new "m" "hi" "alice" 0)
        [(1, "a"), (2, "b")]).messageEditHistory.map Prod.snd = ["hi", "a"] ∧
    ([(1, "a"), (2, "b")].map (Prod.snd) : List String).getLast? =
      some ((applyEdits (Message.new "m" "hi" "alice" 0) [(1, "a"), (2, "b")]).message) := by
  have h := C7_edit_history (Message.new "m" "hi" "alice" 0) [(1, "a"), (2, "b")] rfl
  exact ⟨h.1, by simpa using h.2.1, h.2.2 (by decide)⟩

lemma find_map_ite_self {α : Type} {l : List (String × α)} {k : String} {f : α → α}
    {e : String × α}
    (hfind : l.find? (fun x => x.1 == k) = some e) :
    (l.map (fun x => if x.1 == k then (x.1, f x.2) else x)).find? (fun x => x.1 == k)
      = some (e.1, f e.2) := by
  induction l with
  | nil => cases hfind
  | cons x xs ih =>
      by_cases hx : (x.1 == k) = true
      · have hstep : (x :: xs).find? (fun y => y.1 == k) = some x :=
          List.find?_cons_of_pos _ hx
        rw [hstep] at hfind
        have hxe : x = e := by injection hfind
        subst hxe
        rw [List.map_cons, if_pos hx]
        exact List.find?_cons_of_pos _ hx
      · have hstep : (x :: xs).find? (fun y => y.1 == k) = xs.find? (fun y => y.1 == k) :=
          List.find?_cons_of_neg _ hx
        rw [hstep] at hfind
        rw [List.map_cons, if_neg hx]
        have hstep2 : (x :: xs.map (fun y => if y.1 == k then (y.1, f y.2) else y)).find?
              (fun y => y.1 == k)
            = (xs.map (fun y => if y.1 == k then (y.1, f y.2) else y)).find?
              (fun y => y.1 == k) :=
          List.find?_cons_of_neg _ hx
        rw [hstep2]
        exact ih hfind

lemma storageGet_some_mem {m : List (String × Category)} {k : String} {c : Category}
    (h : storageGet m k = some c) : (k, c) ∈ m := by
  unfold storageGet at h
  cases hf : m.find? (fun e => e.1 == k) with
  | none => rw [hf] at h; injection h
  | some e =>
      rw [hf] at h
      have hmem := List.mem_of_find?_eq_some hf
      have hkey := List.find?_some hf
      have hc : e.2 = c := by simpa using h
      have hk : e.1 = k := by simpa using hkey
      rw [← hk, ← hc]
      exact hmem

lemma storageGet_updateCategory_self {st : AppState} {categoryid : String}
    {F : Category → Category} {c : Category}
    (hg : storageGet st.categoriesStorage categoryid = some c) :
    storageGet (updateCategory st categoryid F).categoriesStorage categoryid = some (F c) := by
  unfold storageGet at hg ⊢
  show ((st.categoriesStorage.map
      (fun e => if e.1 == categoryid then (e.1, F e.2) else e)).find?
      (fun e => e.1 == categoryid)).map (fun e => e.2) = some (F c)
  cases hf : st.categoriesStorage.find? (fun e => e.1 == categoryid) with
  | none => rw [hf] at hg; injection hg
  | some e =>
      rw [hf] at hg
      have hc : e.2 = c := by simpa using hg
      rw [find_map_ite_self hf]
      simp [hc]

lemma topicsGet_modifyTopic_self {c : Category} {topicid : String} {g : Topic → Topic}
    {t : Topic} (ht : topicsGet c.topics topicid = some t) :
    topicsGet (modifyTopic c topicid g).topics topicid = some (g t) := by
  unfold topicsGet at ht ⊢
  show ((c.topics.map (fun e => if e.1 == topicid then (e.1, g e.2) else e)).find?
      (fun e => e.1 == topicid)).map (fun e => e.2) = some (g t)
  cases hf : c.topics.find? (fun e => e.1 == topicid) with
  | none => rw [hf] at ht; injection ht
  | some e =>
      rw [hf] at ht
      have hc : e.2 = t := by simpa using ht
      rw [find_map_ite_self hf]
      simp [hc]

/-- C10: along every sequence of application requests whose createTopic ids
are fresh for the targeted category (the uuidv4 assumption), every reachable
state keeps the pin coherence invariant: category keys are unique and, in
every stored category, pinnedTopics has no duplicate ids and a stored topic
has pinned = true exactly when its id occurs in pinnedTopics; and the pin
route is idempotent: a staff call with shouldPin equal to the topic's
current pinned flag leaves pinnedTopics unchanged while storing the topic
with pinned = shouldPin. -/
theorem C10_pin_coherence :
    (∀ (st : AppState) (trace : List (Nat × AppOp)),
        PinInv st → freshTopicIds st trace = true → PinInv (runApp st trace)) ∧
    (∀ (st : AppState) (categoryid topicid caller : String) (shouldPin : Bool)
        (category : Category) (topic : Topic),
        PinInv st →
        (checkIfModerator st caller || checkIfAdmin st caller) = true →
        topicid ≠ "topics" →
        storageGet st.categoriesStorage categoryid = some category →
        topicsGet category.topics topicid = some topic →
        topic.pinned = shouldPin →
        ∃ category2 : Category,
          storageGet (pinTopicRoute st categoryid topicid shouldPin caller).2.categoriesStorage
              categoryid = some category2 ∧
          category2.pinnedTopics = category.pinnedTopics ∧
          topicsGet category2.topics topicid = some (setPinnedFlag shouldPin topic) ∧
          (setPinnedFlag shouldPin topic).pinned = shouldPin) := by
  constructor
  · intro st trace
    revert st
    induction trace with
    | nil =>
        intro st hinv _
        exact hinv
    | cons p rest ih =>
        intro st hinv hfresh
        obtain ⟨now, op⟩ := p
        have h2 : (createTopicGuard st op && freshTopicIds (applyAppOp st now op) rest)
            = true := hfresh
        rw [Bool.and_eq_true] at h2
        exact ih (applyAppOp st now op) (pinInv_applyAppOp st now op hinv h2.1) h2.2
  · intro st categoryid topicid caller shouldPin category topic hinv hstaff hsent hg htop hflag
    obtain ⟨hnd, hall⟩ := hinv
    have hmemc : (categoryid, category) ∈ st.categoriesStorage := storageGet_some_mem hg
    have hcat : CatInv category := hall (categoryid, category) hmemc
    obtain ⟨hndp, hndk, hiff, hsubp⟩ := hcat
    have hmemt : (topicid, topic) ∈ category.topics := topicsGet_some_mem htop
    have hidtop : topic.id = topicid := (hiff (topicid, topic) hmemt).1
    have hiffp : topic.pinned = true ↔ topicid ∈ category.pinnedTopics :=
      (hiff (topicid, topic) hmemt).2
    have hbeq : (topicid == "topics") = false := by
      rw [beq_eq_false_iff_ne]
      exact hsent
    have hr1 : getCategoryOrTopicOrPost st categoryid none none = .ok (.category category) := by
      simp [getCategoryOrTopicOrPost, hg]
    have hr2 : getCategoryOrTopicOrPost st categoryid (some topicid) none
        = .ok (.topic topic) := by
      simp [getCategoryOrTopicOrPost, hg, hbeq, htop]
    cases shouldPin with
    | true =>
        have hmemp : topicid ∈ category.pinnedTopics := hiffp.mp hflag
        cases hfi : category.pinnedTopics.findIdx? (fun element => element == topic.id) with
        | none =>
            exfalso
            apply not_mem_of_findIdx_none hfi
            rw [hidtop]
            exact hmemp
        | some i =>
            refine ⟨modifyTopic category topicid (setPinnedFlag true), ?_, rfl,
              topicsGet_modifyTopic_self htop, rfl⟩
            have hst : (pinTopicRoute st categoryid topicid true caller).2
                = updateCategory st categoryid (fun c =>
                    modifyTopic { c with pinnedTopics := category.pinnedTopics } topicid
                      (fun t => { t with pinned := true })) := by
              simp only [pinTopicRoute, hstaff, eq_self_iff_true, if_true, hr1, hr2, hfi,
                Bool.not_true, Bool.false_eq_true, if_false]
            rw [hst]
            exact storageGet_updateCategory_self hg
    | false =>
        have hnotp : topicid ∉ category.pinnedTopics := by
          intro hm
          have h1 := hiffp.mpr hm
          rw [hflag] at h1
          simp at h1
        cases hfi : category.pinnedTopics.findIdx? (fun element => element == topic.id) with
        | some i =>
            exfalso
            apply hnotp
            have hmm := mem_of_findIdx_eq_some hfi
            rw [hidtop] at hmm
            exact hmm
        | none =>
            refine ⟨modifyTopic category topicid (setPinnedFlag false), ?_, rfl,
              topicsGet_modifyTopic_self htop, rfl⟩
            have hst : (pinTopicRoute st categoryid topicid false caller).2
                = updateCategory st categoryid (fun c =>
                    modifyTopic { c with pinnedTopics := category.pinnedTopics } topicid
                      (fun t => { t with pinned := false })) := by
              simp only [pinTopicRoute, hstaff, eq_self_iff_true, if_true, hr1, hr2, hfi,
                Bool.false_eq_true, if_false]
            rw [hst]
            exact storageGet_updateCategory_self hg

/-- C10 witness: from stEx10 (moderator mod, category c1 with unpinned
topic t1), a pin of t1 followed by a fresh-id topic creation keeps the
invariant; and unpinning the already-unpinned t1 stores t1 unchanged except
for its pinned flag, with pinnedTopics still what it was. -/
theorem C10_pin_coherence_witness :
    PinInv (runApp stEx10 [(1, AppOp.pinTopicOp "c1" "t1" true "mod"),
      (2, AppOp.createTopicOp "c1" "T2" "m2" "t2" "bob")]) ∧
    (∃ category2 : Category,
      storageGet (pinTopicRoute stEx10 "c1" "t1" false "mod").2.categoriesStorage "c1"
        = some category2 ∧
      category2.pinnedTopics = catEx1.pinnedTopics ∧
      topicsGet category2.topics "t1" = some (setPinnedFlag false topicEx1) ∧
      (setPinnedFlag false topicEx1).pinned = false) :=
  ⟨C10_pin_coherence.1 stEx10 _ (by decide) (by decide),
   C10_pin_coherence.2 stEx10 "c1" "t1" "mod" false catEx1 topicEx1 (by decide) (by decide)
     (by decide) (by decide) (by decide) (by decide)⟩

end Forum
